import Mathlib

/-!
Verification of the libcyphal/libuavcan DSDL compiler code-generation engine.

Shallow embedding of the two generator variants:
  * `Cpp`      — src/commons/dsdl_compiler/libuavcan_dsdl_compiler/__init__.py
                 (C++ header generator, pydsdl based)
  * `MinimalC` — src/libuavcan/dsdl_compiler/libuavcan_dsdl_compiler_minimalc/__init__.py
                 (minimal C generator, pyuavcan dsdl based)

Pure functions of the source are translated into Lean functions; the
filesystem side effects of the output writer are modelled by explicit state
passing over an association-list filesystem; Python exceptions are modelled
with `Except`/`Option`.
-/

/-! ## Output writer (write_generated_data, both variants)

The filesystem is a map from path to (file identity, content).  `nextId`
supplies a fresh identity whenever a file is created, so that a
remove-then-recreate sequence is distinguishable from leaving a file alone
(`os.remove` + `open(..., 'w')` produces a new file, even with equal bytes).
-/

/-- Outcome of one write, as logged by the source
(`Creating`, `Rewriting`, `Up to date`). -/
inductive WriteOutcome where
  | Created
  | Rewritten
  | UpToDate
deriving DecidableEq, Repr

structure FS where
  files : List (String × Nat × String)
  nextId : Nat
deriving DecidableEq, Repr

def FS.lookup (fs : FS) (p : String) : Option (Nat × String) :=
  (fs.files.find? (fun e => e.1 = p)).map (fun e => e.2)

def FS.remove (fs : FS) (p : String) : FS :=
  { fs with files := fs.files.filter (fun e => ¬ (e.1 = p)) }

def FS.create (fs : FS) (p : String) (data : String) : FS :=
  { files := (p, fs.nextId, data) :: fs.files, nextId := fs.nextId + 1 }

/-- `write_generated_data` of the C++ variant
(src/commons/.../libuavcan_dsdl_compiler/__init__.py, lines 129-145):
if the file exists it is unconditionally removed and fully rewritten;
no comparison with the existing content is made. -/
def write_generated_data_cpp (fs : FS) (filename data : String) :
    WriteOutcome × FS :=
  match fs.lookup filename with
  | some _ => (.Rewritten, (fs.remove filename).create filename data)
  | none => (.Created, fs.create filename data)

/-- `write_generated_data` of the minimal-C variant
(src/libuavcan/.../libuavcan_dsdl_compiler_minimalc/__init__.py, lines
112-134): lazy update — if the file exists and its content equals the new
data, log `Up to date` and return without touching the file. -/
def write_generated_data_min (fs : FS) (filename data : String) :
    WriteOutcome × FS :=
  match fs.lookup filename with
  | some (_, existing) =>
      if data = existing then (.UpToDate, fs)
      else (.Rewritten, (fs.remove filename).create filename data)
  | none => (.Created, fs.create filename data)

/-- A one-file filesystem holding content `"c"` at `"x.hpp"` with identity 0. -/
def fs0 : FS := { files := [("x.hpp", 0, "c")], nextId := 1 }

/-- C1: the minimal-C writer satisfies the lazy-write contract — an existing
file whose content equals the new data yields `UpToDate` with the filesystem
(bytes and file identity) unchanged — while the C++ variant, whose module
docstring promises the same lazy write, unconditionally removes and rewrites:
at a file already holding the written content it reports `Rewritten` and the
file's identity changes from 0 to 1 (removed and recreated). -/
theorem c1_write_lazy_contract :
    (∀ (fs : FS) (p d : String) (n : Nat), fs.lookup p = some (n, d) →
        write_generated_data_min fs p d = (.UpToDate, fs)) ∧
      (write_generated_data_cpp fs0 "x.hpp" "c").1 = .Rewritten ∧
      ((write_generated_data_cpp fs0 "x.hpp" "c").2).lookup "x.hpp" =
        some (1, "c") := by
  refine ⟨fun fs p d n h => ?_, by decide, by decide⟩
  unfold write_generated_data_min
  rw [h]
  simp

/-- C1 witness: concrete instantiation of the lazy-write theorem. -/
theorem c1_write_lazy_contract_witness :
    fs0.lookup "x.hpp" = some (0, "c") ∧
      write_generated_data_min fs0 "x.hpp" "c" = (.UpToDate, fs0) :=
  ⟨by decide, c1_write_lazy_contract.1 fs0 "x.hpp" "c" 0 (by decide)⟩

/-! ## IDL type descriptors and the type mapping resolver (C++ variant)

`Ty` mirrors the pydsdl data_type hierarchy as consumed by
`type_to_cpp_type`: primitive kinds with bit length and cast mode, static
and dynamic arrays, compound types and void padding.  A compound type is
represented by its `name_components` (the dot-separated pieces of
`full_name`); `boolean` carries no bit length because pydsdl booleans are
one bit wide. -/

inductive CastMode where
  | saturated
  | truncated
deriving DecidableEq, Repr

inductive Ty where
  | boolean (cast : CastMode)
  | unsignedInt (bits : Nat) (cast : CastMode)
  | signedInt (bits : Nat) (cast : CastMode)
  | float (bits : Nat) (cast : CastMode)
  | staticArray (element : Ty) (size : Nat)
  | dynamicArray (element : Ty) (maxSize : Nat)
  | compound (nameComponents : List String)
  | voidT (bits : Nat)
deriving DecidableEq, Repr

def cast_mode_str : CastMode → String
  | .saturated => "::uavcan::CastModeSaturate"
  | .truncated => "::uavcan::CastModeTruncate"

/-- `type_to_cpp_type` (C++ variant, lines 147-179).  The
`full_name.replace('.', '::')` of the source is rendered from the stored
name components; DSDL identifiers contain no dots. -/
def type_to_cpp_type : Ty → String
  | .float bits cast =>
      "::uavcan::FloatSpec< " ++ toString bits ++ ", " ++ cast_mode_str cast
        ++ " >"
  | .boolean cast =>
      "::uavcan::IntegerSpec< 1, ::uavcan::SignednessUnsigned, "
        ++ cast_mode_str cast ++ " >"
  | .unsignedInt bits cast =>
      "::uavcan::IntegerSpec< " ++ toString bits
        ++ ", ::uavcan::SignednessUnsigned, " ++ cast_mode_str cast ++ " >"
  | .signedInt bits cast =>
      "::uavcan::IntegerSpec< " ++ toString bits
        ++ ", ::uavcan::SignednessSigned, " ++ cast_mode_str cast ++ " >"
  | .staticArray element size =>
      "::uavcan::Array< " ++ type_to_cpp_type element
        ++ ", ::uavcan::ArrayModeStatic, " ++ toString size ++ " >"
  | .dynamicArray element maxSize =>
      "::uavcan::Array< " ++ type_to_cpp_type element
        ++ ", ::uavcan::ArrayModeDynamic, " ++ toString maxSize ++ " >"
  | .compound comps => "::" ++ String.intercalate "::" comps
  | .voidT bits =>
      "::uavcan::IntegerSpec< " ++ toString bits
        ++ ", ::uavcan::SignednessUnsigned, ::uavcan::CastModeSaturate >"

/-- `type_output_filename` (C++ variant, lines 80-82) at `path=""`:
`os.path.join("", *t.name_components) + '.' + OUTPUT_FILE_EXTENSION` on a
POSIX filesystem. -/
def type_output_filename (nameComponents : List String) : String :=
  String.intercalate "/" nameComponents ++ ".hpp"

/-- A pydsdl attribute as consumed by the context builder: fields and
constants both expose `name`, `data_type` and (for constants)
`string_value`.  Void padding attributes carry an empty name. -/
structure PAttr where
  name : String
  data_type : Ty
  string_value : String := ""
deriving DecidableEq, Repr

/-- `detect_include` (inner function of `fields_includes`, lines 217-221):
the output path of a compound type, found by unwrapping array element
types; `None` otherwise. -/
def detect_include : Ty → Option String
  | .compound comps => some (type_output_filename comps)
  | .staticArray element _ => detect_include element
  | .dynamicArray element _ => detect_include element
  | _ => none

/-- `fields_includes` (lines 216-222):
`list(sorted(set(filter(None, [detect_include(x.data_type) for x in fields]))))`.
`filterMap` is map-then-drop-`None` (`detect_include` never returns an empty
string, so Python's falsy filter drops exactly the `None`s); `dedup` models
`set`, `insertionSort` the ascending `sorted`. -/
def fields_includes (fields : List PAttr) : List String :=
  ((fields.filterMap (fun x => detect_include x.data_type)).dedup).insertionSort
    (· ≤ ·)

/-- The compound type, if any, at the base of a field type's array nesting:
the type whose include `detect_include` reports. -/
def base_compound : Ty → Option (List String)
  | .compound comps => some comps
  | .staticArray element _ => base_compound element
  | .dynamicArray element _ => base_compound element
  | _ => none

/-- All compound types referenced by a field list, directly or through
arbitrarily nested array element types (with multiplicity). -/
def referenced_compounds (fields : List PAttr) : List (List String) :=
  fields.filterMap (fun x => base_compound x.data_type)

theorem detect_include_eq_base (t : Ty) :
    detect_include t = (base_compound t).map type_output_filename := by
  induction t <;> simp [detect_include, base_compound, *]

theorem filterMap_detect_eq_map_path (fields : List PAttr) :
    fields.filterMap (fun x => detect_include x.data_type) =
      (referenced_compounds fields).map type_output_filename := by
  induction fields with
  | nil => rfl
  | cons a rest ih =>
      simp only [referenced_compounds, List.filterMap_cons] at *
      rw [detect_include_eq_base]
      cases base_compound a.data_type <;> simp [ih, referenced_compounds]

/-- C2: for a field list referencing `N` distinct compound types (directly
or through arbitrarily nested arrays, and with distinct compound types
having distinct output paths), the computed include list has exactly `N`
entries, no duplicates, is sorted ascending by path, and is independent of
the declaration order of the fields. -/
theorem c2_fields_includes_sorted_nodup (fields : List PAttr) (N : Nat)
    (hinj : ∀ a ∈ referenced_compounds fields, ∀ b ∈ referenced_compounds fields,
      type_output_filename a = type_output_filename b → a = b)
    (hN : (referenced_compounds fields).toFinset.card = N) :
    (fields_includes fields).length = N ∧
      (fields_includes fields).Nodup ∧
      (fields_includes fields).Sorted (· ≤ ·) ∧
      ∀ fields2, fields2.Perm fields →
        fields_includes fields2 = fields_includes fields := by
  have hperm := List.perm_insertionSort (α := String) (· ≤ ·)
  unfold fields_includes
  refine ⟨?_, ?_, List.sorted_insertionSort _ _, ?_⟩
  · rw [(hperm _).length_eq, ← List.card_toFinset, filterMap_detect_eq_map_path]
    have himg : (List.map type_output_filename (referenced_compounds fields)).toFinset
        = (referenced_compounds fields).toFinset.image type_output_filename := by
      ext s
      simp [List.mem_toFinset, Finset.mem_image]
    rw [himg, Finset.card_image_of_injOn, hN]
    intro a ha b hb
    exact hinj a (List.mem_toFinset.mp ha) b (List.mem_toFinset.mp hb)
  · exact (hperm _).nodup_iff.mpr (List.nodup_dedup _)
  · intro fields2 h2
    have hp : (fields2.filterMap (fun x => detect_include x.data_type)).dedup.Perm
        (fields.filterMap (fun x => detect_include x.data_type)).dedup :=
      (h2.filterMap _).dedup
    refine List.eq_of_perm_of_sorted ?_ (List.sorted_insertionSort _ _)
      (List.sorted_insertionSort _ _)
    exact ((hperm _).trans hp).trans (hperm _).symm

/-- Fields referencing two distinct compound types, out of order and through
nested arrays, with one type referenced twice. -/
def c2demo : List PAttr :=
  [ { name := "b", data_type := .dynamicArray (.compound ["zoo", "B"]) 4 },
    { name := "x", data_type := .unsignedInt 8 .saturated },
    { name := "a", data_type := .compound ["alpha", "A"] },
    { name := "c",
      data_type := .staticArray (.staticArray (.compound ["zoo", "B"]) 2) 3 } ]

/-- C2 witness: the demo field list references 2 distinct compound types and
its include list has exactly 2 entries. -/
theorem c2_fields_includes_sorted_nodup_witness :
    (referenced_compounds c2demo).toFinset.card = 2 ∧
      (fields_includes c2demo).length = 2 :=
  ⟨by decide, (c2_fields_includes_sorted_nodup c2demo 2 (by decide) (by decide)).1⟩

/-! ## C9: recursion over array element types has no depth ceiling

`type_to_cpp_type` recurses into `t.element_type` with no recursion-depth
guard.  To state what happens on a cyclic descriptor (not representable as
an inductive value), the same recursion is replayed against a graph of
nodes addressed by identifiers, with an explicit recursion budget: `none`
means the budget was exhausted without the recursion completing — there is
no resolver-internal ceiling producing an error value. -/

inductive TyNodeG where
  | boolean (cast : CastMode)
  | unsignedInt (bits : Nat) (cast : CastMode)
  | signedInt (bits : Nat) (cast : CastMode)
  | float (bits : Nat) (cast : CastMode)
  | staticArr (element : Nat) (size : Nat)
  | dynamicArr (element : Nat) (maxSize : Nat)
  | compound (nameComponents : List String)
  | voidT (bits : Nat)

/-- `type_to_cpp_type` replayed on a node graph with a recursion budget. -/
def resolveG (g : Nat → TyNodeG) : Nat → Nat → Option String
  | 0, _ => none
  | fuel + 1, i =>
      match g i with
      | .float bits cast =>
          some ("::uavcan::FloatSpec< " ++ toString bits ++ ", "
            ++ cast_mode_str cast ++ " >")
      | .boolean cast =>
          some ("::uavcan::IntegerSpec< 1, ::uavcan::SignednessUnsigned, "
            ++ cast_mode_str cast ++ " >")
      | .unsignedInt bits cast =>
          some ("::uavcan::IntegerSpec< " ++ toString bits
            ++ ", ::uavcan::SignednessUnsigned, " ++ cast_mode_str cast ++ " >")
      | .signedInt bits cast =>
          some ("::uavcan::IntegerSpec< " ++ toString bits
            ++ ", ::uavcan::SignednessSigned, " ++ cast_mode_str cast ++ " >")
      | .staticArr element size =>
          (resolveG g fuel element).map (fun v =>
            "::uavcan::Array< " ++ v ++ ", ::uavcan::ArrayModeStatic, "
              ++ toString size ++ " >")
      | .dynamicArr element maxSize =>
          (resolveG g fuel element).map (fun v =>
            "::uavcan::Array< " ++ v ++ ", ::uavcan::ArrayModeDynamic, "
              ++ toString maxSize ++ " >")
      | .compound comps => some ("::" ++ String.intercalate "::" comps)
      | .voidT bits =>
          some ("::uavcan::IntegerSpec< " ++ toString bits
            ++ ", ::uavcan::SignednessUnsigned, ::uavcan::CastModeSaturate >")

/-- `type_to_cpp_type` with a recursion budget, on inductive (acyclic)
descriptors. -/
def resolveFuelTy : Nat → Ty → Option String
  | 0, _ => none
  | fuel + 1, t =>
      match t with
      | .staticArray element size =>
          (resolveFuelTy fuel element).map (fun v =>
            "::uavcan::Array< " ++ v ++ ", ::uavcan::ArrayModeStatic, "
              ++ toString size ++ " >")
      | .dynamicArray element maxSize =>
          (resolveFuelTy fuel element).map (fun v =>
            "::uavcan::Array< " ++ v ++ ", ::uavcan::ArrayModeDynamic, "
              ++ toString maxSize ++ " >")
      | t => some (type_to_cpp_type t)

/-- Array nesting depth of a descriptor. -/
def tyDepth : Ty → Nat
  | .staticArray element _ => tyDepth element + 1
  | .dynamicArray element _ => tyDepth element + 1
  | _ => 0

/-- A cyclic descriptor graph: node 0 is a static array whose element type
is node 0 itself. -/
def cyclicG : Nat → TyNodeG := fun _ => .staticArr 0 1

theorem resolveG_cyclic_none : ∀ fuel, resolveG cyclicG fuel 0 = none := by
  intro fuel
  induction fuel with
  | zero => rfl
  | succ n ih => simp [resolveG, cyclicG, ih]

/-- C9 counterexample: on the cyclic descriptor graph, the resolver's
recursion does not complete even with a recursion budget of 10000 — there is
no resolver-internal depth ceiling that would terminate it fatally. -/
theorem c9_cyclic_budget_exhausted : resolveG cyclicG 10000 0 = none :=
  resolveG_cyclic_none 10000

/-- C9 amended: the resolver recurses with no depth ceiling of its own —
on every (finite, acyclic) descriptor the recursion completes once the
budget exceeds the array nesting depth, producing exactly
`type_to_cpp_type`, while on the cyclic descriptor graph no finite
recursion budget completes. -/
theorem c9_no_recursion_ceiling :
    (∀ (t : Ty) (fuel : Nat), tyDepth t < fuel →
        resolveFuelTy fuel t = some (type_to_cpp_type t)) ∧
      ∀ fuel, resolveG cyclicG fuel 0 = none := by
  refine ⟨?_, resolveG_cyclic_none⟩
  intro t
  induction t with
  | staticArray element size ih =>
      intro fuel h
      cases fuel with
      | zero => exact absurd h (Nat.not_lt_zero _)
      | succ f =>
          have he : tyDepth (Ty.staticArray element size) = tyDepth element + 1 :=
            rfl
          have hd : tyDepth element < f := by omega
          simp [resolveFuelTy, ih f hd, type_to_cpp_type]
  | dynamicArray element maxSize ih =>
      intro fuel h
      cases fuel with
      | zero => exact absurd h (Nat.not_lt_zero _)
      | succ f =>
          have he : tyDepth (Ty.dynamicArray element maxSize) = tyDepth element + 1 :=
            rfl
          have hd : tyDepth element < f := by omega
          simp [resolveFuelTy, ih f hd, type_to_cpp_type]
  | boolean cast =>
      intro fuel h
      cases fuel with
      | zero => exact absurd h (Nat.not_lt_zero _)
      | succ f => rfl
  | unsignedInt bits cast =>
      intro fuel h
      cases fuel with
      | zero => exact absurd h (Nat.not_lt_zero _)
      | succ f => rfl
  | signedInt bits cast =>
      intro fuel h
      cases fuel with
      | zero => exact absurd h (Nat.not_lt_zero _)
      | succ f => rfl
  | float bits cast =>
      intro fuel h
      cases fuel with
      | zero => exact absurd h (Nat.not_lt_zero _)
      | succ f => rfl
  | compound comps =>
      intro fuel h
      cases fuel with
      | zero => exact absurd h (Nat.not_lt_zero _)
      | succ f => rfl
  | voidT bits =>
      intro fuel h
      cases fuel with
      | zero => exact absurd h (Nat.not_lt_zero _)
      | succ f => rfl

/-- C9 witness: a depth-1 array descriptor resolves within budget 2. -/
theorem c9_no_recursion_ceiling_witness :
    tyDepth (Ty.staticArray (.unsignedInt 8 .saturated) 4) < 2 ∧
      resolveFuelTy 2 (Ty.staticArray (.unsignedInt 8 .saturated) 4) =
        some (type_to_cpp_type (Ty.staticArray (.unsignedInt 8 .saturated) 4)) :=
  ⟨by decide, c9_no_recursion_ceiling.1 _ 2 (by decide)⟩

/-! ## Rendering context builder, C++ variant (generate_one_type)

`inject_cpp_types` (lines 231-247) and `inject_constant_info` (lines
261-275) accumulate per-attribute records with `out_attributes += out_a`
where `out_a` is a `dict`.  In Python, `list += dict` extends the list with
the dict's *keys*; since `out_a` is empty at that moment, nothing is ever
appended, and the later writes populate a local dict that is never stored.
-/

/-- Python `list += dict`: extends the list with the dict's keys. -/
def listExtendDictKeys (l : List String) (d : List (String × String)) :
    List String :=
  l ++ d.map (fun e => e.1)

/-- `isinstance(a, VoidType)` where `a` is a pydsdl `Attribute` object:
an attribute is not a `DataType` instance, so the test is always `False`
(`a.data_type` may be void, but `a` itself never is). -/
def attr_isinstance_VoidType (_ : PAttr) : Bool := false

/-- Loop of `inject_cpp_types`: `out_a = {}` then `out_attributes += out_a`
(which appends the keys of the still-empty dict, i.e. nothing), then the
local dict is populated and dropped. -/
def inject_cpp_types_go : List PAttr → Nat → List String → List String
  | [], _, out_attributes => out_attributes
  | a :: rest, void_index, out_attributes =>
      let out_a : List (String × String) := []
      let out1 := listExtendDictKeys out_attributes out_a
      let out_a := out_a ++ [("cpp_type", type_to_cpp_type a.data_type)]
      let isVoid := attr_isinstance_VoidType a
      let out_a := out_a ++ [("void", if isVoid then "True" else "False")]
      let _out_a := out_a ++
        [("name", if isVoid then "_void_" ++ toString void_index else a.name)]
      inject_cpp_types_go rest (if isVoid then void_index + 1 else void_index)
        out1

/-- `inject_cpp_types` (lines 231-247). -/
def inject_cpp_types (attributes : List PAttr) : List String :=
  inject_cpp_types_go attributes 0 []

/-- `inject_constant_info` of the C++ variant (lines 261-275).  Its input is
`template_params.constants`, the key list accumulated by
`inject_cpp_types`; on a non-empty list the loop body would evaluate
`c.string_value` on a string and raise `AttributeError` (after appending
the empty dict's keys), and on the empty list it returns the empty
accumulator. -/
def inject_constant_info_cpp : List String → Except String (List String)
  | [] => .ok []
  | _c :: _rest =>
      .error "AttributeError: str object has no attribute string_value"

/-- A pydsdl compound type as consumed by `generate_one_type`:
`is_service` models `isinstance(in_datatype, ServiceType)` and `is_union`
models `isinstance(in_datatype, UnionType)`. -/
structure CppType where
  fields : List PAttr
  constants : List PAttr
  is_service : Bool
  is_union : Bool
deriving DecidableEq, Repr

/-- The slice of the rendering context built by `generate_one_type` (lines
248-281) that the claims concern.  The `union` flags are present only on
the branch that sets them. -/
structure CppCtx where
  fields : List String
  constants : List String
  all_attributes : List String
  union : Option Bool
  request_union : Option Bool
  response_union : Option Bool
  request_constants : List String
  response_constants : List String
deriving DecidableEq, Repr

/-- `generate_one_type` context construction, C++ variant (lines 248-281):
attribute/constant key lists, `all_attributes`, the union flags (for a
service, `isinstance(in_datatype, UnionType)` is `False` and `and`
short-circuits, so `len()` is never applied to the `request_fields`
generator unless a type were both a service and a union, in which case
`len(generator)` raises `TypeError`), then `inject_constant_info` and the
aliasing `request_constants = response_constants = constants` (source
comment: "just clone for now. This is total junk"). -/
def generate_one_type_ctx_cpp (t : CppType) :
    Except String CppCtx := do
  let fields := inject_cpp_types t.fields
  let constants := inject_cpp_types t.constants
  let all_attributes := fields ++ constants
  let flags : Option Bool × Option Bool × Option Bool ←
    if t.is_service then
      if t.is_union then
        .error "TypeError: object of type generator has no len()"
      else .ok (none, some false, some false)
    else .ok (some (t.is_union && fields.length != 0), none, none)
  let constants2 ← inject_constant_info_cpp constants
  .ok { fields := fields, constants := constants2,
        all_attributes := all_attributes,
        union := flags.1, request_union := flags.2.1,
        response_union := flags.2.2,
        request_constants := constants2, response_constants := constants2 }

theorem listExtendDictKeys_empty (l : List String) :
    listExtendDictKeys l [] = l := by
  simp [listExtendDictKeys]

theorem inject_cpp_types_go_acc (attrs : List PAttr) :
    ∀ (n : Nat) (acc : List String), inject_cpp_types_go attrs n acc = acc := by
  induction attrs with
  | nil => intro n acc; rfl
  | cons a rest ih =>
      intro n acc
      simp only [inject_cpp_types_go, listExtendDictKeys_empty]
      exact ih _ _

/-- The attribute lists stored in the context are always empty. -/
theorem inject_cpp_types_empty (attrs : List PAttr) :
    inject_cpp_types attrs = [] :=
  inject_cpp_types_go_acc attrs 0 []

/-- C10: in the C++ generator variant, the `fields` and `constants`
sequences stored in the rendering context by `generate_one_type` are empty
regardless of the declared attributes — each per-attribute dict is
concatenated onto the accumulator list while still empty, so `list += dict`
appends none of its keys — and consequently `all_attributes` is empty too.
(The hypothesis excludes the unrealizable service-and-union combination, on
which context building raises before completing.) -/
theorem c10_cpp_context_sequences_empty (t : CppType)
    (h : t.is_service = true → t.is_union = false) :
    (generate_one_type_ctx_cpp t).toOption.map
        (fun c => (c.fields, c.constants, c.all_attributes)) =
      some ([], [], []) := by
  unfold generate_one_type_ctx_cpp
  rw [inject_cpp_types_empty, inject_cpp_types_empty]
  cases hs : t.is_service with
  | true => rw [h hs]; rfl
  | false => rfl

/-- C10 witness: a message type with one field and one constant still gets
empty context sequences. -/
theorem c10_cpp_context_sequences_empty_witness :
    (generate_one_type_ctx_cpp
        { fields := [{ name := "x", data_type := .unsignedInt 8 .saturated }],
          constants := [{ name := "Y", data_type := .unsignedInt 8 .saturated,
                          string_value := "3" }],
          is_service := false, is_union := false }).toOption.map
        (fun c => (c.fields, c.constants, c.all_attributes)) =
      some ([], [], []) :=
  c10_cpp_context_sequences_empty _ (fun h => by cases h)

/-- Attribute list with two void fields interleaved with a named field. -/
def c4attrs : List PAttr :=
  [ { name := "", data_type := .voidT 3 },
    { name := "a", data_type := .unsignedInt 8 .saturated },
    { name := "", data_type := .voidT 5 } ]

/-- C4: on an attribute list with two void fields interleaved with a named
field, the context builder stores no attributes at all — in particular no
`_void_0`/`_void_1` names: the per-attribute records are discarded by the
`list += dict` slip (and the void test `isinstance(a, VoidType)` examines
the attribute object rather than its data type, so the `_void_` branch of
the discarded records is dead as well). -/
theorem c4_void_names_never_stored :
    inject_cpp_types c4attrs = [] ∧
      "_void_0" ∉ inject_cpp_types c4attrs ∧
      "_void_1" ∉ inject_cpp_types c4attrs := by
  refine ⟨inject_cpp_types_empty _, ?_, ?_⟩ <;>
    rw [inject_cpp_types_empty] <;> simp

/-! ## Constant rendering, minimal-C variant (inject_constant_info)

The minimal-C variant checks `c.type.kind` (the constant's data type, not
the attribute object) and renders `c_value` onto real constant objects, so
its validation actually runs.  `float(...)`/`int(...)` acceptance of CPython
is modelled by `pyFloatLit`/`pyIntLit` below. -/

inductive PKind where
  | kbool
  | kuint
  | ksint
  | kfloat
deriving DecidableEq, Repr

/-- A pyuavcan dsdl constant as consumed by `inject_constant_info`
(minimal-C variant): `kind` is `c.type.kind`, `string_value` the literal
text. -/
structure MConst where
  name : String
  kind : PKind
  string_value : String
deriving DecidableEq, Repr

def isDigitChar (c : Char) : Bool := '0' ≤ c && c ≤ '9'

/-- Helper of `digitsUnd`: digits with single underscores allowed between
digits. -/
def digitsUndGo : List Char → Bool
  | [] => true
  | '_' :: rest =>
      match rest with
      | c :: rest2 => isDigitChar c && digitsUndGo rest2
      | [] => false
  | c :: rest => isDigitChar c && digitsUndGo rest

/-- A non-empty digit run, with single underscores permitted between digits
(CPython numeric-literal grammar for `int()`/`float()` digit parts). -/
def digitsUnd : List Char → Bool
  | [] => false
  | c :: rest => isDigitChar c && digitsUndGo rest

def pyWsChar (c : Char) : Bool :=
  c == ' ' || c == '\t' || c == '\n' || c == '\r' || c == '\x0b' || c == '\x0c'

def stripWsBoth (l : List Char) : List Char :=
  ((l.dropWhile pyWsChar).reverse.dropWhile pyWsChar).reverse

def stripSign : List Char → List Char
  | '+' :: rest => rest
  | '-' :: rest => rest
  | l => l

/-- Acceptance of CPython `int(s)` (base 10): optional surrounding
whitespace, optional sign, digits with single underscores between. -/
def pyIntLit (s : String) : Bool :=
  digitsUnd (stripSign (stripWsBoth s.data))

/-- Split at the first exponent marker `e`/`E`. -/
def breakAtExp : List Char → List Char × Option (List Char)
  | [] => ([], none)
  | c :: rest =>
      if c == 'e' || c == 'E' then ([], some rest)
      else
        let p := breakAtExp rest
        (c :: p.1, p.2)

/-- Split at the first `.`. -/
def breakAtDot : List Char → List Char × Option (List Char)
  | [] => ([], none)
  | c :: rest =>
      if c == '.' then ([], some rest)
      else
        let p := breakAtDot rest
        (c :: p.1, p.2)

def matchMantissa (l : List Char) : Bool :=
  match breakAtDot l with
  | (intPart, none) => digitsUnd intPart
  | (intPart, some frac) =>
      if intPart.isEmpty then digitsUnd frac
      else digitsUnd intPart && (frac.isEmpty || digitsUnd frac)

def matchExpPart (l : List Char) : Bool :=
  digitsUnd (stripSign l)

/-- Acceptance of CPython `float(s)`: optional surrounding whitespace,
optional sign, then `inf`/`infinity`/`nan` (case-insensitive) or a decimal
mantissa with optional fraction and exponent. -/
def pyFloatLit (s : String) : Bool :=
  let l := stripSign (stripWsBoth s.data)
  let lower := l.map Char.toLower
  if lower = "inf".data || lower = "infinity".data || lower = "nan".data then
    true
  else
    match breakAtExp l with
    | (mant, none) => matchMantissa mant
    | (mant, some ex) => matchMantissa mant && matchExpPart ex

/-- `inject_constant_info` of the minimal-C variant (lines 203-212): for
each constant, validate the literal under the constant's declared kind
(`float(...)` for float kinds, `int(...)` otherwise — a `ValueError`
aborts generation of the type), pass float literals through verbatim and
append `'U'` to unsigned-integer literals. -/
def inject_constant_info_min : List MConst → Except String (List (MConst × String))
  | [] => .ok []
  | c :: rest =>
      if c.kind = .kfloat then
        if pyFloatLit c.string_value then
          (inject_constant_info_min rest).map
            (fun out => (c, c.string_value) :: out)
        else
          .error ("ValueError: could not convert string to float: "
            ++ c.string_value)
      else
        if pyIntLit c.string_value then
          (inject_constant_info_min rest).map (fun out =>
            (c, if c.kind = .kuint then c.string_value ++ "U"
              else c.string_value) :: out)
        else
          .error ("ValueError: invalid literal for int: " ++ c.string_value)

/-- A minimal-C message type, restricted to the constant slice that
`generate_one_type` validates and renders. -/
structure MinMsg where
  constants : List MConst
deriving DecidableEq, Repr

/-- A minimal-C service type: its request and response sub-structures carry
their own constant lists (`t.request_constants`, `t.response_constants`). -/
structure MinService where
  request_constants : List MConst
  response_constants : List MConst
deriving DecidableEq, Repr

/-- Constant slice of `generate_one_type` for a minimal-C message: build
the constant info, then expand the template on the result.  Expansion is a
parameter so that the error path can be shown independent of it. -/
def generate_one_type_min_msg (expander : List (MConst × String) → String)
    (t : MinMsg) : Except String String := do
  let cs ← inject_constant_info_min t.constants
  .ok (expander cs)

/-- Constant slice of `generate_one_type` for a minimal-C service (lines
216-218): `inject_constant_info(t.request_constants)` then
`inject_constant_info(t.response_constants)`. -/
def generate_service_constants_min (t : MinService) :
    Except String (List (MConst × String) × List (MConst × String)) := do
  let req ← inject_constant_info_min t.request_constants
  let resp ← inject_constant_info_min t.response_constants
  .ok (req, resp)

theorem inject_min_error_of_bad_float (cs : List MConst)
    (h : ∃ c ∈ cs, c.kind = .kfloat ∧ pyFloatLit c.string_value = false) :
    ∃ e, inject_constant_info_min cs = .error e := by
  induction cs with
  | nil => obtain ⟨c, hc, _⟩ := h; cases hc
  | cons c rest ih =>
      obtain ⟨d, hd, hkind, hbad⟩ := h
      rcases List.mem_cons.mp hd with rfl | hdrest
      · refine ⟨"ValueError: could not convert string to float: "
          ++ d.string_value, ?_⟩
        simp [inject_constant_info_min, hkind, hbad]
      · by_cases hk : c.kind = PKind.kfloat
        · by_cases hv : pyFloatLit c.string_value
          · obtain ⟨e, he⟩ := ih ⟨d, hdrest, hkind, hbad⟩
            refine ⟨e, ?_⟩
            simp [inject_constant_info_min, hk, hv, he, Except.map]
          · refine ⟨"ValueError: could not convert string to float: "
              ++ c.string_value, ?_⟩
            simp [inject_constant_info_min, hk,
              Bool.not_eq_true _ ▸ eq_false_of_ne_true hv]
        · by_cases hv : pyIntLit c.string_value
          · obtain ⟨e, he⟩ := ih ⟨d, hdrest, hkind, hbad⟩
            refine ⟨e, ?_⟩
            simp [inject_constant_info_min, hk, hv, he, Except.map]
          · refine ⟨"ValueError: invalid literal for int: "
              ++ c.string_value, ?_⟩
            simp [inject_constant_info_min, hk, hv]

theorem inject_min_ok_rendering (cs : List MConst) :
    ∀ out, inject_constant_info_min cs = .ok out →
      ∀ p ∈ out, (p.1.kind = .kuint → p.2 = p.1.string_value ++ "U") ∧
        (p.1.kind = .kfloat → p.2 = p.1.string_value) := by
  induction cs with
  | nil =>
      intro out hout p hp
      simp [inject_constant_info_min] at hout
      subst hout
      cases hp
  | cons c rest ih =>
      intro out hout p hp
      simp only [inject_constant_info_min] at hout
      by_cases hk : c.kind = PKind.kfloat
      · rw [if_pos hk] at hout
        by_cases hv : pyFloatLit c.string_value
        · rw [if_pos hv] at hout
          cases hrec : inject_constant_info_min rest with
          | error e => rw [hrec] at hout; cases hout
          | ok out2 =>
              rw [hrec] at hout
              simp only [Except.map, Except.ok.injEq] at hout
              subst hout
              rcases List.mem_cons.mp hp with rfl | hp2
              · exact ⟨fun hu => absurd (hk ▸ hu) (by simp), fun _ => rfl⟩
              · exact ih out2 hrec p hp2
        · rw [if_neg hv] at hout; cases hout
      · rw [if_neg hk] at hout
        by_cases hv : pyIntLit c.string_value
        · rw [if_pos hv] at hout
          cases hrec : inject_constant_info_min rest with
          | error e => rw [hrec] at hout; cases hout
          | ok out2 =>
              rw [hrec] at hout
              simp only [Except.map, Except.ok.injEq] at hout
              subst hout
              rcases List.mem_cons.mp hp with rfl | hp2
              · refine ⟨fun hu => ?_, fun hf => absurd hf hk⟩
                have hu2 : c.kind = PKind.kuint := hu
                simp [hu2]
              · exact ih out2 hrec p hp2
        · rw [if_neg hv] at hout; cases hout

/-- A message whose only constant is a float-kind constant with literal
`"abc"` (minimal-C data model). -/
def c3bad : MinMsg := { constants := [⟨"X", .kfloat, "abc"⟩] }

/-- The same failing input on the C++ variant's data model: a message with
a float32 constant whose string value is `"abc"`. -/
def c3badCpp : CppType :=
  { fields := [],
    constants := [⟨"X", .float 32 .saturated, "abc"⟩],
    is_service := false, is_union := false }

/-- C3: in the minimal-C variant, a type containing a float-kind constant
whose string value is not a valid float literal fails fatally during
context building, before and independently of any template expansion; on
success, every unsigned-integer constant renders as its literal with `'U'`
appended and every float constant passes its literal through verbatim.
The C++ variant, however, raises nothing at the same failing input: its
constants context list is empty (the `list += dict` slip), so the
validation loop never runs and context building succeeds. -/
theorem c3_invalid_literal_fatal :
    (∀ (t : MinMsg) (expander : List (MConst × String) → String),
        (∃ c ∈ t.constants, c.kind = .kfloat ∧ pyFloatLit c.string_value = false) →
        ∃ e, generate_one_type_min_msg expander t = .error e) ∧
      (∀ (cs : List MConst) out, inject_constant_info_min cs = .ok out →
        ∀ p ∈ out, (p.1.kind = .kuint → p.2 = p.1.string_value ++ "U") ∧
          (p.1.kind = .kfloat → p.2 = p.1.string_value)) ∧
      (∃ ctx, generate_one_type_ctx_cpp c3badCpp = .ok ctx ∧
        ctx.constants = []) := by
  refine ⟨?_, fun cs => inject_min_ok_rendering cs, ?_⟩
  · intro t expander h
    obtain ⟨e, he⟩ := inject_min_error_of_bad_float t.constants h
    exact ⟨e, by simp [generate_one_type_min_msg, he, Bind.bind, Except.bind]⟩
  · exact ⟨_, rfl, rfl⟩

/-- C3 witness: the float constant `"abc"` aborts minimal-C generation, and
a valid unsigned constant `"42"` renders as `"42U"`. -/
theorem c3_invalid_literal_fatal_witness :
    (∃ c ∈ c3bad.constants, c.kind = .kfloat ∧ pyFloatLit c.string_value = false) ∧
      (∃ e, generate_one_type_min_msg (fun _ => "") c3bad = .error e) ∧
      (inject_constant_info_min [⟨"FOO", .kuint, "42"⟩] =
        .ok [(⟨"FOO", .kuint, "42"⟩, "42U")]) ∧
      ∀ p ∈ [((⟨"FOO", PKind.kuint, "42"⟩ : MConst), "42U")],
        (p.1.kind = .kuint → p.2 = p.1.string_value ++ "U") ∧
          (p.1.kind = .kfloat → p.2 = p.1.string_value) :=
  ⟨by decide, c3_invalid_literal_fatal.1 c3bad (fun _ => "") (by decide),
    by rfl,
    c3_invalid_literal_fatal.2.1 [⟨"FOO", .kuint, "42"⟩]
      [(⟨"FOO", .kuint, "42"⟩, "42U")] (by rfl)⟩

/-- A minimal-C service whose request and response declare different
constants. -/
def c8svc : MinService :=
  { request_constants := [⟨"FOO", .kuint, "1"⟩],
    response_constants := [⟨"BAR", .kuint, "2"⟩] }

/-- C8: the minimal-C variant computes request and response constants
independently — each from its own sub-structure only — and a service with
different request and response constants yields different rendered lists;
the C++ variant instead assigns the selfsame constants list (always empty)
to both `request_constants` and `response_constants` for every type it can
process. -/
theorem c8_service_constants_independent :
    (∀ s1 s2 : MinService, s1.request_constants = s2.request_constants →
        inject_constant_info_min s1.request_constants =
          inject_constant_info_min s2.request_constants) ∧
      (∀ s1 s2 : MinService, s1.response_constants = s2.response_constants →
        inject_constant_info_min s1.response_constants =
          inject_constant_info_min s2.response_constants) ∧
      (∃ pr, generate_service_constants_min c8svc = .ok pr ∧ pr.1 ≠ pr.2) ∧
      (∀ t : CppType, t.is_service = true → t.is_union = false →
        ∃ ctx, generate_one_type_ctx_cpp t = .ok ctx ∧
          ctx.request_constants = ctx.response_constants) := by
  refine ⟨fun s1 s2 h => by rw [h], fun s1 s2 h => by rw [h], ?_, ?_⟩
  · exact ⟨_, rfl, by decide⟩
  · intro t hs hu
    unfold generate_one_type_ctx_cpp
    rw [inject_cpp_types_empty, inject_cpp_types_empty, hs, hu]
    exact ⟨_, rfl, rfl⟩

/-- C8 witness: instantiating the non-interference parts at `c8svc` and the
C++ aliasing part at a concrete service type. -/
theorem c8_service_constants_independent_witness :
    (inject_constant_info_min c8svc.request_constants =
        inject_constant_info_min c8svc.request_constants) ∧
      (∃ ctx, generate_one_type_ctx_cpp
          { fields := [], constants := [], is_service := true,
            is_union := false } = .ok ctx ∧
        ctx.request_constants = ctx.response_constants) :=
  ⟨c8_service_constants_independent.1 c8svc c8svc rfl,
    c8_service_constants_independent.2.2.2 _ rfl rfl⟩

/-! ## Template preprocessor (make_template_expander, lines 312-339)

Each `re.sub` of the source is compiled by hand into a leftmost,
non-overlapping match-and-rewrite scanner: `scanGo step fuel l` walks `l`
left to right; where `step` recognises a match it emits the replacement and
resumes after the consumed text, otherwise it copies one character.  Every
`step` consumes at least one character on a match, so `fuel = l.length`
always suffices; the fuel representation keeps every function structurally
recursive and computable by `decide`. -/

def scanGo (step : List Char → Option (List Char × List Char)) :
    Nat → List Char → List Char
  | 0, l => l
  | _ + 1, [] => []
  | fuel + 1, c :: cs =>
      match step (c :: cs) with
      | some (repl, after) => repl ++ scanGo step fuel after
      | none => c :: scanGo step fuel cs

def dropSpacesL (l : List Char) : List Char := l.dropWhile (· == ' ')

/-- Rule 1, `re.sub(r'\\\r{0,1}\n\ *', r' ', text)`: a backslash, optional
carriage return, newline and following spaces collapse to one space. -/
def stepBackslash : List Char → Option (List Char × List Char)
  | '\\' :: '\n' :: rest => some ([' '], dropSpacesL rest)
  | '\\' :: '\r' :: '\n' :: rest => some ([' '], dropSpacesL rest)
  | _ => none

/-- Body and remainder at the first `}`: `[^\}]+\}` with a non-empty body. -/
def breakAtCloseBrace : List Char → Option (List Char × List Char)
  | [] => none
  | c :: cs =>
      if c == '}' then some ([], cs)
      else (breakAtCloseBrace cs).map (fun p => (c :: p.1, p.2))

/-- Rule 2, `re.sub(r'([^\$]{0,1})\$\{([^\}]+)\}', r'\1$!\2!$', text)`:
the optional group-1 character (anything but `$`) is kept, `${body}`
becomes `$!body!$`.  A match starting at this position needs either `${`
here (empty group 1) or a non-`$` character directly followed by `${`. -/
def stepDollar : List Char → Option (List Char × List Char)
  | '$' :: '{' :: rest =>
      (breakAtCloseBrace rest).bind (fun p =>
        if p.1.isEmpty then none
        else some ('$' :: '!' :: p.1 ++ ['!', '$'], p.2))
  | c :: '$' :: '{' :: rest =>
      if c == '$' then none
      else
        (breakAtCloseBrace rest).bind (fun p =>
          if p.1.isEmpty then none
          else some (c :: '$' :: '!' :: p.1 ++ ['!', '$'], p.2))
  | _ => none

/-- Newline-split of a text: all segments, including a final empty one for
a trailing newline (the shape `(?m)^...$` operates on). -/
def splitNl : List Char → List (List Char)
  | [] => [[]]
  | c :: cs =>
      if c == '\n' then [] :: splitNl cs
      else
        match splitNl cs with
        | line :: more => (c :: line) :: more
        | [] => [[c]]

def joinNl : List (List Char) → List Char
  | [] => []
  | [l] => l
  | l :: ls => l ++ '\n' :: joinNl ls

/-- Content of a matched flow-control line for the C++ variant's
`(.+?):{0,1}$`: the lazy group plus optional trailing colon force dropping
exactly one trailing colon, provided at least one character remains. -/
def flowContentCpp (s : List Char) : List Char :=
  if 2 ≤ s.length ∧ s.getLast? = some ':' then s.dropLast else s

/-- Rule 3, C++ variant: `re.sub(r'(?m)^(\ *)\%\ *(.+?):{0,1}$',
r'\1<!--(\2)-->', text)`, one line at a time.  When nothing follows the
spaces after `%`, the greedy `\ *` backtracks one space into the lazy
group, yielding the single-space content. -/
def flowLineCpp (line : List Char) : List Char :=
  let ind := line.takeWhile (· == ' ')
  match line.dropWhile (· == ' ') with
  | '%' :: r =>
      let sp := r.takeWhile (· == ' ')
      let s := r.dropWhile (· == ' ')
      if s.isEmpty then
        if sp.isEmpty then line
        else ind ++ "<!--( )-->".data
      else ind ++ "<!--(".data ++ flowContentCpp s ++ ")-->".data
  | _ => line

/-- Rule 3, minimal-C variant: `re.sub(r'(?m)^(\ *)\%\ *([^\:]+?):{0,1}$',
r'\1<!--(\2)-->', text)`: the lazy group excludes colons, so a colon
anywhere but the very end blocks the match; `%` followed by spaces only
(or by a lone colon) backtracks one space into the group. -/
def flowLineC (line : List Char) : List Char :=
  let ind := line.takeWhile (· == ' ')
  match line.dropWhile (· == ' ') with
  | '%' :: r =>
      let sp := r.takeWhile (· == ' ')
      let s := r.dropWhile (· == ' ')
      if s.isEmpty then
        if sp.isEmpty then line
        else ind ++ "<!--( )-->".data
      else if !(s.contains ':') then
        ind ++ "<!--(".data ++ s ++ ")-->".data
      else if 2 ≤ s.length ∧ s.getLast? = some ':' ∧ !(s.dropLast.contains ':')
      then
        ind ++ "<!--(".data ++ s.dropLast ++ ")-->".data
      else if s = [':'] ∧ ¬ sp.isEmpty then
        ind ++ "<!--( )-->".data
      else line
  | _ => line

def dropPrefixL : List Char → List Char → Option (List Char)
  | [], l => some l
  | _ :: _, [] => none
  | p :: ps, c :: cs => if p == c then dropPrefixL ps cs else none

def isLowerAlpha (c : Char) : Bool := 'a' ≤ c && c ≤ 'z'

/-- Rule 4, `re.sub(r'\<\!--\(end[a-z]+\)--\>', r'<!--(end)-->', text)`. -/
def stepEnd (l : List Char) : Option (List Char × List Char) :=
  (dropPrefixL "<!--(end".data l).bind (fun r =>
    let w := r.takeWhile isLowerAlpha
    if w.isEmpty then none
    else
      (dropPrefixL ")-->".data (r.dropWhile isLowerAlpha)).map
        (fun after => ("<!--(end)-->".data, after)))

/-- Suffix from the first newline on (the newline survives, `.` in the
removed `.*` not matching line breaks). -/
def dropToNl : List Char → List Char
  | [] => []
  | c :: cs => if c == '\n' then c :: cs else dropToNl cs

/-- Rule 5, `re.sub(r'\ *\#\!.*', '', text)`: spaces, `#!` and the rest of
the line are removed. -/
def stepComment (l : List Char) : Option (List Char × List Char) :=
  match l.dropWhile (· == ' ') with
  | '#' :: '!' :: rest => some ([], dropToNl rest)
  | _ => none

def isWordChar (c : Char) : Bool :=
  ('a' ≤ c && c ≤ 'z') || ('A' ≤ c && c ≤ 'Z') || ('0' ≤ c && c ≤ '9')
    || c == '_'

/-- Rule 6, `re.sub(r'(\<\!--\(macro\ [a-zA-Z0-9_]+\)--\>.*?)', r'\1\n',
text)`: the lazy `.*?` matches empty, so a newline is inserted after every
macro-declaration marker — on every run. -/
def stepMacroNl (l : List Char) : Option (List Char × List Char) :=
  (dropPrefixL "<!--(macro ".data l).bind (fun r =>
    let w := r.takeWhile isWordChar
    if w.isEmpty then none
    else
      (dropPrefixL ")-->".data (r.dropWhile isWordChar)).map
        (fun after =>
          ("<!--(macro ".data ++ w ++ ")-->".data ++ ['\n'], after)))

def subBackslash (l : List Char) : List Char := scanGo stepBackslash l.length l
def subDollar (l : List Char) : List Char := scanGo stepDollar l.length l
def subFlowCpp (l : List Char) : List Char := joinNl ((splitNl l).map flowLineCpp)
def subFlowC (l : List Char) : List Char := joinNl ((splitNl l).map flowLineC)
def subEnd (l : List Char) : List Char := scanGo stepEnd l.length l
def subComment (l : List Char) : List Char := scanGo stepComment l.length l
def subMacroNewline (l : List Char) : List Char := scanGo stepMacroNl l.length l

/-- The preprocessing pipeline of `make_template_expander`, C++ variant:
the six substitutions in source order. -/
def preprocessCpp (s : String) : String :=
  ⟨subMacroNewline (subComment (subEnd (subFlowCpp (subDollar
    (subBackslash s.data)))))⟩

/-- The preprocessing pipeline of the minimal-C variant: identical except
for the flow-control rule's colon-free lazy group. -/
def preprocessC (s : String) : String :=
  ⟨subMacroNewline (subComment (subEnd (subFlowC (subDollar
    (subBackslash s.data)))))⟩

/-! ### Scanner lemmas -/

theorem scanGo_nil (step : List Char → Option (List Char × List Char))
    (fuel : Nat) : scanGo step fuel [] = [] := by
  cases fuel <;> rfl

theorem scanGo_id (step : List Char → Option (List Char × List Char)) :
    ∀ (fuel : Nat) (l : List Char), (∀ k, step (l.drop k) = none) →
      scanGo step fuel l = l := by
  intro fuel
  induction fuel with
  | zero => intro l _; rfl
  | succ f ih =>
      intro l h
      cases l with
      | nil => rfl
      | cons c cs =>
          have h0 : step (c :: cs) = none := by simpa using h 0
          have hrest : ∀ k, step (cs.drop k) = none := fun k => by
            simpa using h (k + 1)
          simp [scanGo, h0, ih cs hrest]

theorem scanGo_append (step : List Char → Option (List Char × List Char))
    (b : List Char) (fuel : Nat) :
    ∀ a : List Char, (∀ k, k < a.length → step ((a ++ b).drop k) = none) →
      scanGo step (a.length + fuel) (a ++ b) = a ++ scanGo step fuel b := by
  intro a
  induction a with
  | nil => intro _; simp
  | cons c a2 ih =>
      intro h
      have h0 : step (c :: (a2 ++ b)) = none := by simpa using h 0 (by simp)
      have hrest : ∀ k, k < a2.length → step ((a2 ++ b).drop k) = none :=
        fun k hk => by simpa using h (k + 1) (by simpa using Nat.succ_lt_succ hk)
      have hfe : (c :: a2).length + fuel = (a2.length + fuel) + 1 := by
        simp; omega
      rw [List.cons_append, hfe]
      simp [scanGo, h0, ih hrest]

theorem step_drop_all (step : List Char → Option (List Char × List Char))
    (l : List Char) (h1 : ∀ k, k < l.length → step (l.drop k) = none)
    (h2 : step [] = none) : ∀ k, step (l.drop k) = none := by
  intro k
  by_cases hk : k < l.length
  · exact h1 k hk
  · rw [List.drop_eq_nil_of_le (by omega)]
    exact h2

theorem stepBackslash_none (l : List Char) (h : '\\' ∉ l) :
    stepBackslash l = none := by
  rw [stepBackslash.eq_def]
  split
  · simp at h
  · simp at h
  · rfl

theorem stepDollar_none (l : List Char) (h : '$' ∉ l) :
    stepDollar l = none := by
  rw [stepDollar.eq_def]
  split
  · simp at h
  · simp at h
  · rfl

theorem stepEnd_nil : stepEnd [] = none := rfl

theorem stepEnd_none (l : List Char) (h : '<' ∉ l) : stepEnd l = none := by
  cases l with
  | nil => rfl
  | cons c cs =>
      have hc : ('<' == c) = false := by
        simp only [beq_eq_false_iff_ne, ne_eq]
        intro he
        exact h (by rw [he]; exact List.mem_cons_self c cs)
      simp [stepEnd, dropPrefixL, hc]

theorem stepMacroNl_nil : stepMacroNl [] = none := rfl

theorem stepMacroNl_none (l : List Char) (h : '<' ∉ l) :
    stepMacroNl l = none := by
  cases l with
  | nil => rfl
  | cons c cs =>
      have hc : ('<' == c) = false := by
        simp only [beq_eq_false_iff_ne, ne_eq]
        intro he
        exact h (by rw [he]; exact List.mem_cons_self c cs)
      simp [stepMacroNl, dropPrefixL, hc]

theorem stepComment_none (l : List Char) (h : '#' ∉ l) :
    stepComment l = none := by
  unfold stepComment
  cases hr : l.dropWhile (· == ' ') with
  | nil => rfl
  | cons d tail =>
      have hd : d ∈ l := by
        have hsub : List.Sublist (l.dropWhile (· == ' ')) l :=
          List.dropWhile_sublist _
        exact hsub.subset (by rw [hr]; exact List.mem_cons_self d tail)
      have hdh : d ≠ '#' := fun he => h (he ▸ hd)
      split
      · rename_i heq
        injection heq with h1 _
        exact absurd h1 hdh
      · rfl

theorem stepEnd_space (r : List Char) : stepEnd (' ' :: r) = none := by
  simp [stepEnd, dropPrefixL]

theorem stepMacroNl_space (r : List Char) : stepMacroNl (' ' :: r) = none := by
  simp [stepMacroNl, dropPrefixL]

theorem not_mem_spaces_append {c : Char} (n : Nat) (b : List Char)
    (hc : c ≠ ' ') (hb : c ∉ b) : c ∉ (List.replicate n ' ' ++ b) := by
  intro hm
  rcases List.mem_append.mp hm with h1 | h2
  · exact hc (List.eq_of_mem_replicate h1)
  · exact hb h2

theorem not_mem_append_lower {c : Char} (b w : List Char) (hb : c ∉ b)
    (hw : w.all isLowerAlpha = true) (hc : isLowerAlpha c = false) :
    c ∉ (b ++ w) := by
  intro hm
  rcases List.mem_append.mp hm with h1 | h2
  · exact hb h1
  · have := List.all_eq_true.mp hw _ h2
    rw [hc] at this
    cases this

theorem subBackslash_id (l : List Char) (h : '\\' ∉ l) : subBackslash l = l :=
  scanGo_id _ _ _ (fun k =>
    stepBackslash_none _ (fun hm => h (List.drop_subset _ _ hm)))

theorem subDollar_id (l : List Char) (h : '$' ∉ l) : subDollar l = l :=
  scanGo_id _ _ _ (fun k =>
    stepDollar_none _ (fun hm => h (List.drop_subset _ _ hm)))

theorem subEnd_id (l : List Char) (h : '<' ∉ l) : subEnd l = l :=
  scanGo_id _ _ _ (fun k =>
    stepEnd_none _ (fun hm => h (List.drop_subset _ _ hm)))

theorem subComment_id (l : List Char) (h : '#' ∉ l) : subComment l = l :=
  scanGo_id _ _ _ (fun k =>
    stepComment_none _ (fun hm => h (List.drop_subset _ _ hm)))

theorem subMacroNewline_id (l : List Char) (h : '<' ∉ l) :
    subMacroNewline l = l :=
  scanGo_id _ _ _ (fun k =>
    stepMacroNl_none _ (fun hm => h (List.drop_subset _ _ hm)))

theorem drop_replicate_append (k n : Nat) (hk : k ≤ n) (b : List Char) :
    (List.replicate n ' ' ++ b).drop k = List.replicate (n - k) ' ' ++ b := by
  rw [List.drop_append_of_le_length (by simpa using hk), List.drop_replicate]

theorem scan_spaces_append (step : List Char → Option (List Char × List Char))
    (hsp : ∀ r, step (' ' :: r) = none) (n fuel : Nat) (b : List Char) :
    scanGo step (n + fuel) (List.replicate n ' ' ++ b) =
      List.replicate n ' ' ++ scanGo step fuel b := by
  have := scanGo_append step b fuel (List.replicate n ' ')
  rw [List.length_replicate] at this
  apply this
  intro k hk
  rw [drop_replicate_append k n (by omega)]
  have hnk : n - k = (n - k - 1) + 1 := by omega
  rw [hnk, List.replicate_succ, List.cons_append]
  exact hsp _

theorem subEnd_spaces (n : Nat) (b : List Char) :
    subEnd (List.replicate n ' ' ++ b) = List.replicate n ' ' ++ subEnd b := by
  unfold subEnd
  rw [List.length_append, List.length_replicate]
  exact scan_spaces_append _ stepEnd_space n _ b

theorem subMacroNewline_spaces (n : Nat) (b : List Char) :
    subMacroNewline (List.replicate n ' ' ++ b) =
      List.replicate n ' ' ++ subMacroNewline b := by
  unfold subMacroNewline
  rw [List.length_append, List.length_replicate]
  exact scan_spaces_append _ stepMacroNl_space n _ b

theorem splitNl_ne_nil (l : List Char) : splitNl l ≠ [] := by
  cases l with
  | nil => simp [splitNl]
  | cons c cs =>
      simp only [splitNl]
      split
      · simp
      · split <;> simp

theorem joinNl_cons (l : List Char) (ls : List (List Char)) (h : ls ≠ []) :
    joinNl (l :: ls) = l ++ '\n' :: joinNl ls := by
  cases ls with
  | nil => exact absurd rfl h
  | cons p ps => rfl

theorem joinNl_splitNl (l : List Char) : joinNl (splitNl l) = l := by
  induction l with
  | nil => rfl
  | cons c cs ih =>
      simp only [splitNl]
      by_cases hc : (c == '\n') = true
      · rw [if_pos hc]
        rw [joinNl_cons _ _ (splitNl_ne_nil cs), ih]
        simp [eq_of_beq hc]
      · rw [if_neg hc]
        cases hsp : splitNl cs with
        | nil => exact absurd hsp (splitNl_ne_nil cs)
        | cons p ps =>
            cases ps with
            | nil =>
                have := ih
                rw [hsp] at this
                simp only [joinNl] at this ⊢
                rw [this]
            | cons q qs =>
                have := ih
                rw [hsp] at this
                rw [joinNl_cons _ _ (by simp)] at this
                rw [joinNl_cons _ _ (by simp), ← this]
                simp

theorem splitNl_mem (l : List Char) :
    ∀ line ∈ splitNl l, ∀ c ∈ line, c ∈ l := by
  induction l with
  | nil =>
      intro line hline c hc
      simp [splitNl] at hline
      subst hline
      cases hc
  | cons a cs ih =>
      intro line hline c hc
      simp only [splitNl] at hline
      by_cases ha : (a == '\n') = true
      · rw [if_pos ha] at hline
        rcases List.mem_cons.mp hline with rfl | h2
        · cases hc
        · exact List.mem_cons_of_mem _ (ih line h2 c hc)
      · rw [if_neg ha] at hline
        cases hsp : splitNl cs with
        | nil => exact absurd hsp (splitNl_ne_nil cs)
        | cons p ps =>
            rw [hsp] at hline
            rcases List.mem_cons.mp hline with rfl | h2
            · rcases List.mem_cons.mp hc with rfl | h3
              · exact List.mem_cons_self _ _
              · exact List.mem_cons_of_mem _
                  (ih p (by rw [hsp]; exact List.mem_cons_self _ _) c h3)
            · exact List.mem_cons_of_mem _
                (ih line (by rw [hsp]; exact List.mem_cons_of_mem _ h2) c hc)

theorem splitNl_no_nl (l : List Char) (h : '\n' ∉ l) : splitNl l = [l] := by
  induction l with
  | nil => rfl
  | cons c cs ih =>
      simp only [splitNl]
      have hc : (c == '\n') = false := by
        simp only [beq_eq_false_iff_ne, ne_eq]
        intro he
        exact h (he ▸ List.mem_cons_self c cs)
      rw [hc]
      simp only [Bool.false_eq_true, if_false]
      rw [ih (fun hm => h (List.mem_cons_of_mem _ hm))]

theorem flowLineCpp_id (line : List Char) (h : '%' ∉ line) :
    flowLineCpp line = line := by
  simp only [flowLineCpp]
  cases hr : line.dropWhile (· == ' ') with
  | nil => rfl
  | cons d tail =>
      have hd : d ∈ line := by
        have hsub : List.Sublist (line.dropWhile (· == ' ')) line :=
          List.dropWhile_sublist _
        exact hsub.subset (by rw [hr]; exact List.mem_cons_self d tail)
      have hdh : d ≠ '%' := fun he => h (he ▸ hd)
      split
      · rename_i heq
        injection heq with h1 _
        exact absurd h1 hdh
      · rfl

theorem flowLineC_id (line : List Char) (h : '%' ∉ line) :
    flowLineC line = line := by
  simp only [flowLineC]
  cases hr : line.dropWhile (· == ' ') with
  | nil => rfl
  | cons d tail =>
      have hd : d ∈ line := by
        have hsub : List.Sublist (line.dropWhile (· == ' ')) line :=
          List.dropWhile_sublist _
        exact hsub.subset (by rw [hr]; exact List.mem_cons_self d tail)
      have hdh : d ≠ '%' := fun he => h (he ▸ hd)
      split
      · rename_i heq
        injection heq with h1 _
        exact absurd h1 hdh
      · rfl

theorem subFlowCpp_id (l : List Char) (h : '%' ∉ l) : subFlowCpp l = l := by
  unfold subFlowCpp
  have : (splitNl l).map flowLineCpp = splitNl l := by
    rw [show (splitNl l).map flowLineCpp = (splitNl l).map id from
      List.map_congr_left (fun x hx =>
        flowLineCpp_id x (fun hm => h (splitNl_mem l x hx _ hm)))]
    exact List.map_id _
  rw [this, joinNl_splitNl]

theorem subFlowC_id (l : List Char) (h : '%' ∉ l) : subFlowC l = l := by
  unfold subFlowC
  have : (splitNl l).map flowLineC = splitNl l := by
    rw [show (splitNl l).map flowLineC = (splitNl l).map id from
      List.map_congr_left (fun x hx =>
        flowLineC_id x (fun hm => h (splitNl_mem l x hx _ hm)))]
    exact List.map_id _
  rw [this, joinNl_splitNl]

theorem takeWhile_spaces_append (n : Nat) (c : Char) (r : List Char)
    (hc : (c == ' ') = false) :
    (List.replicate n ' ' ++ c :: r).takeWhile (· == ' ') =
      List.replicate n ' ' := by
  induction n with
  | zero => simp [List.takeWhile_cons, hc]
  | succ m ih => simp [List.replicate_succ, List.takeWhile_cons, ih]

theorem dropWhile_spaces_append (n : Nat) (c : Char) (r : List Char)
    (hc : (c == ' ') = false) :
    (List.replicate n ' ' ++ c :: r).dropWhile (· == ' ') = c :: r := by
  induction n with
  | zero => simp [List.dropWhile_cons, hc]
  | succ m ih => simp [List.replicate_succ, List.dropWhile_cons, ih]

theorem flowLineCpp_pct (n : Nat) (r : List Char) :
    flowLineCpp (List.replicate n ' ' ++ '%' :: r) =
      List.replicate n ' ' ++ flowLineCpp ('%' :: r) := by
  simp only [flowLineCpp]
  rw [takeWhile_spaces_append n '%' r (by decide),
    dropWhile_spaces_append n '%' r (by decide),
    List.takeWhile_cons, List.dropWhile_cons]
  simp only [show (('%' : Char) == ' ') = false from by decide,
    Bool.false_eq_true, if_false]
  split_ifs <;> simp

theorem flowLineC_pct (n : Nat) (r : List Char) :
    flowLineC (List.replicate n ' ' ++ '%' :: r) =
      List.replicate n ' ' ++ flowLineC ('%' :: r) := by
  simp only [flowLineC]
  rw [takeWhile_spaces_append n '%' r (by decide),
    dropWhile_spaces_append n '%' r (by decide),
    List.takeWhile_cons, List.dropWhile_cons]
  simp only [show (('%' : Char) == ' ') = false from by decide,
    Bool.false_eq_true, if_false]
  split_ifs <;> simp

theorem getLast?_append_right (l₁ l₂ : List Char) (h : l₂ ≠ []) :
    (l₁ ++ l₂).getLast? = l₂.getLast? := by
  rw [List.getLast?_append]
  cases hl : l₂.getLast? with
  | none => exact absurd (List.getLast?_eq_none_iff.mp hl) h
  | some x => rfl

theorem mem_of_getLast?_eq (l : List Char) (x : Char) (h : l.getLast? = some x) :
    x ∈ l := by
  obtain ⟨ys, rfl⟩ := List.getLast?_eq_some_iff.mp h
  simp

theorem lower_ne_colon (w : List Char) (hlow : w.all isLowerAlpha = true)
    (x : Char) (hx : x ∈ w) : x ≠ ':' := by
  intro he
  have := List.all_eq_true.mp hlow _ hx
  rw [he] at this
  cases this

theorem endw_getLast_ne (w : List Char) (hw : w ≠ [])
    (hlow : w.all isLowerAlpha = true) :
    ¬(2 ≤ ("end".data ++ w).length ∧ ("end".data ++ w).getLast? = some ':') := by
  rintro ⟨-, h2⟩
  rw [getLast?_append_right _ _ hw] at h2
  exact lower_ne_colon w hlow ':' (mem_of_getLast?_eq w ':' h2) rfl

theorem flowLineCpp_match (r : List Char) :
    flowLineCpp ('%' :: r) =
      (if (r.dropWhile (· == ' ')).isEmpty then
        if (r.takeWhile (· == ' ')).isEmpty then '%' :: r
        else "<!--( )-->".data
      else "<!--(".data ++ flowContentCpp (r.dropWhile (· == ' '))
        ++ ")-->".data) := by
  simp only [flowLineCpp, List.takeWhile_cons, List.dropWhile_cons]
  simp [show (('%' : Char) == ' ') = false from by decide]

theorem flowLineC_match (r : List Char) :
    flowLineC ('%' :: r) =
      (if (r.dropWhile (· == ' ')).isEmpty then
        if (r.takeWhile (· == ' ')).isEmpty then '%' :: r
        else "<!--( )-->".data
      else if !((r.dropWhile (· == ' ')).contains ':') then
        "<!--(".data ++ r.dropWhile (· == ' ') ++ ")-->".data
      else if 2 ≤ (r.dropWhile (· == ' ')).length ∧
          (r.dropWhile (· == ' ')).getLast? = some ':' ∧
          !((r.dropWhile (· == ' ')).dropLast.contains ':') then
        "<!--(".data ++ (r.dropWhile (· == ' ')).dropLast ++ ")-->".data
      else if r.dropWhile (· == ' ') = [':'] ∧
          ¬ (r.takeWhile (· == ' ')).isEmpty then
        "<!--( )-->".data
      else '%' :: r) := by
  simp only [flowLineC, List.takeWhile_cons, List.dropWhile_cons]
  simp [show (('%' : Char) == ' ') = false from by decide]

theorem dropWhile_space_endw (w : List Char) :
    (' ' :: ("end".data ++ w)).dropWhile (· == ' ') = "end".data ++ w := by
  rw [List.dropWhile_cons]
  simp only [show ((' ' : Char) == ' ') = true from rfl, if_true]
  show ('e' :: ("nd".data ++ w)).dropWhile (· == ' ') = _
  rw [List.dropWhile_cons]
  simp [show (('e' : Char) == ' ') = false from by decide]

theorem flowLineCpp_endline (w : List Char) (hw : w ≠ [])
    (hlow : w.all isLowerAlpha = true) :
    flowLineCpp ('%' :: (' ' :: ("end".data ++ w))) =
      "<!--(end".data ++ w ++ ")-->".data := by
  rw [flowLineCpp_match, dropWhile_space_endw]
  have hne : ("end".data ++ w).isEmpty = false := rfl
  rw [hne]
  simp only [Bool.false_eq_true, if_false]
  unfold flowContentCpp
  rw [if_neg (endw_getLast_ne w hw hlow)]
  simp

theorem colon_not_mem_endw (w : List Char) (hlow : w.all isLowerAlpha = true) :
    ':' ∉ ("end".data ++ w) :=
  not_mem_append_lower _ _ (by decide) hlow (by decide)

theorem flowLineC_endline (w : List Char) (hw : w ≠ [])
    (hlow : w.all isLowerAlpha = true) :
    flowLineC ('%' :: (' ' :: ("end".data ++ w))) =
      "<!--(end".data ++ w ++ ")-->".data := by
  rw [flowLineC_match]
  rw [dropWhile_space_endw]
  have hne : ("end".data ++ w).isEmpty = false := rfl
  rw [hne]
  simp only [Bool.false_eq_true, if_false]
  have hcont : (("end".data ++ w).contains ':') = false := by
    simpa using colon_not_mem_endw w hlow
  rw [hcont]
  simp

theorem dropPrefixL_self_append (p r : List Char) :
    dropPrefixL p (p ++ r) = some r := by
  induction p with
  | nil => rfl
  | cons c ps ih => simp [dropPrefixL, ih]

theorem takeWhile_all_append (p : Char → Bool) (w : List Char) (y : Char)
    (r : List Char) (hw : w.all p = true) (hy : p y = false) :
    (w ++ y :: r).takeWhile p = w ∧ (w ++ y :: r).dropWhile p = y :: r := by
  induction w with
  | nil => simp [List.takeWhile_cons, List.dropWhile_cons, hy]
  | cons c cs ih =>
      have hc : p c = true := (List.all_eq_true.mp hw _ (List.mem_cons_self _ _))
      have hcs : cs.all p = true := by
        rw [List.all_eq_true] at hw ⊢
        exact fun x hx => hw x (List.mem_cons_of_mem _ hx)
      have := ih hcs
      simp [List.takeWhile_cons, List.dropWhile_cons, hc, this.1, this.2]

theorem stepEnd_marker (w : List Char) (hw : w ≠ [])
    (hlow : w.all isLowerAlpha = true) :
    stepEnd ("<!--(end".data ++ w ++ ")-->".data) =
      some ("<!--(end)-->".data, []) := by
  have key : dropPrefixL "<!--(end".data
      ("<!--(end".data ++ w ++ ")-->".data) = some (w ++ ")-->".data) := by
    rw [List.append_assoc]
    exact dropPrefixL_self_append _ _
  unfold stepEnd
  rw [key]
  have htw := takeWhile_all_append isLowerAlpha w ')' "-->".data hlow (by decide)
  have htw1 : List.takeWhile isLowerAlpha (w ++ ")-->".data) = w := htw.1
  have htw2 : List.dropWhile isLowerAlpha (w ++ ")-->".data) = ")-->".data :=
    htw.2
  simp only [Option.some_bind]
  rw [htw1, htw2]
  have hne : w.isEmpty = false := by
    cases w with
    | nil => exact absurd rfl hw
    | cons c cs => rfl
  rw [hne]
  simp only [Bool.false_eq_true, if_false]
  have hdp : dropPrefixL ")-->".data ")-->".data = some [] := by
    have := dropPrefixL_self_append ")-->".data []
    rwa [List.append_nil] at this
  rw [hdp]
  rfl

theorem subEnd_marker (w : List Char) (hw : w ≠ [])
    (hlow : w.all isLowerAlpha = true) :
    subEnd ("<!--(end".data ++ w ++ ")-->".data) = "<!--(end)-->".data := by
  unfold subEnd
  have hlen : ("<!--(end".data ++ w ++ ")-->".data).length =
      (11 + w.length) + 1 := by
    have h8 : ("<!--(end".data).length = 8 := rfl
    have h4 : ((")-->".data).length) = 4 := rfl
    simp only [List.length_append, h8, h4]
    omega
  rw [hlen]
  show scanGo stepEnd ((11 + w.length) + 1)
    ('<' :: ("!--(end".data ++ w ++ ")-->".data)) = _
  simp only [scanGo]
  rw [show stepEnd ('<' :: ("!--(end".data ++ w ++ ")-->".data)) =
    some ("<!--(end)-->".data, []) from stepEnd_marker w hw hlow]
  simp [scanGo_nil]

theorem subFlowCpp_forline (n : Nat) :
    subFlowCpp (List.replicate n ' ' ++ "% for a in range(10):".data) =
      List.replicate n ' ' ++ "<!--(for a in range(10))-->".data := by
  unfold subFlowCpp
  rw [splitNl_no_nl _ (not_mem_spaces_append n _ (by decide) (by decide))]
  show flowLineCpp (List.replicate n ' ' ++ '%' :: " for a in range(10):".data)
    = _
  rw [flowLineCpp_pct]
  rw [show flowLineCpp ('%' :: " for a in range(10):".data) =
    "<!--(for a in range(10))-->".data from by decide]

theorem subFlowC_forline (n : Nat) :
    subFlowC (List.replicate n ' ' ++ "% for a in range(10):".data) =
      List.replicate n ' ' ++ "<!--(for a in range(10))-->".data := by
  unfold subFlowC
  rw [splitNl_no_nl _ (not_mem_spaces_append n _ (by decide) (by decide))]
  show flowLineC (List.replicate n ' ' ++ '%' :: " for a in range(10):".data)
    = _
  rw [flowLineC_pct]
  rw [show flowLineC ('%' :: " for a in range(10):".data) =
    "<!--(for a in range(10))-->".data from by decide]

theorem nl_not_mem_endline (n : Nat) (w : List Char)
    (hlow : w.all isLowerAlpha = true) :
    '\n' ∉ (List.replicate n ' ' ++ '%' :: ' ' :: ("end".data ++ w)) := by
  have hw2 : '\n' ∉ ("end".data ++ w) :=
    not_mem_append_lower _ _ (by decide) hlow (by decide)
  apply not_mem_spaces_append n _ (by decide)
  intro hm
  simp only [List.mem_cons] at hm
  rcases hm with h | h | h
  · exact absurd h (by decide)
  · exact absurd h (by decide)
  · exact hw2 h

theorem subFlowCpp_endline (n : Nat) (w : List Char) (hw : w ≠ [])
    (hlow : w.all isLowerAlpha = true) :
    subFlowCpp (List.replicate n ' ' ++ '%' :: ' ' :: ("end".data ++ w)) =
      List.replicate n ' ' ++ ("<!--(end".data ++ w ++ ")-->".data) := by
  unfold subFlowCpp
  rw [splitNl_no_nl _ (nl_not_mem_endline n w hlow)]
  show flowLineCpp (List.replicate n ' ' ++ '%' :: (' ' :: ("end".data ++ w)))
    = _
  rw [flowLineCpp_pct, flowLineCpp_endline w hw hlow]

theorem subFlowC_endline (n : Nat) (w : List Char) (hw : w ≠ [])
    (hlow : w.all isLowerAlpha = true) :
    subFlowC (List.replicate n ' ' ++ '%' :: ' ' :: ("end".data ++ w)) =
      List.replicate n ' ' ++ ("<!--(end".data ++ w ++ ")-->".data) := by
  unfold subFlowC
  rw [splitNl_no_nl _ (nl_not_mem_endline n w hlow)]
  show flowLineC (List.replicate n ' ' ++ '%' :: (' ' :: ("end".data ++ w)))
    = _
  rw [flowLineC_pct, flowLineC_endline w hw hlow]

theorem not_mem_endline_chars {c : Char} (n : Nat) (w : List Char)
    (hlow : w.all isLowerAlpha = true) (hsp : c ≠ ' ') (hpc : c ≠ '%')
    (hend : c ∉ "end".data) (hc : isLowerAlpha c = false) :
    c ∉ (List.replicate n ' ' ++ '%' :: ' ' :: ("end".data ++ w)) := by
  apply not_mem_spaces_append n _ hsp
  intro hm
  simp only [List.mem_cons] at hm
  rcases hm with h | h | h
  · exact hpc h
  · exact hsp h
  · rcases List.mem_append.mp h with h4 | h5
    · exact hend h4
    · have := List.all_eq_true.mp hlow _ h5
      rw [hc] at this
      cases this

theorem not_mem_end_marker {c : Char} (w : List Char)
    (hlow : w.all isLowerAlpha = true) (hA : c ∉ "<!--(end".data)
    (hB : c ∉ ")-->".data) (hc : isLowerAlpha c = false) :
    c ∉ ("<!--(end".data ++ w ++ ")-->".data) := by
  intro hm
  rcases List.mem_append.mp hm with h1 | h2
  · rcases List.mem_append.mp h1 with h3 | h4
    · exact hA h3
    · have := List.all_eq_true.mp hlow _ h4
      rw [hc] at this
      cases this
  · exact hB h2

theorem preprocessCpp_forline (n : Nat) :
    preprocessCpp ⟨List.replicate n ' ' ++ "% for a in range(10):".data⟩ =
      ⟨List.replicate n ' ' ++ "<!--(for a in range(10))-->".data⟩ := by
  show String.mk (subMacroNewline (subComment (subEnd (subFlowCpp (subDollar
    (subBackslash
      (List.replicate n ' ' ++ "% for a in range(10):".data))))))) = _
  rw [subBackslash_id _ (not_mem_spaces_append n _ (by decide) (by decide))]
  rw [subDollar_id _ (not_mem_spaces_append n _ (by decide) (by decide))]
  rw [subFlowCpp_forline]
  rw [subEnd_spaces, show subEnd "<!--(for a in range(10))-->".data =
    "<!--(for a in range(10))-->".data from by decide]
  rw [subComment_id _ (not_mem_spaces_append n _ (by decide) (by decide))]
  rw [subMacroNewline_spaces,
    show subMacroNewline "<!--(for a in range(10))-->".data =
      "<!--(for a in range(10))-->".data from by decide]

theorem preprocessC_forline (n : Nat) :
    preprocessC ⟨List.replicate n ' ' ++ "% for a in range(10):".data⟩ =
      ⟨List.replicate n ' ' ++ "<!--(for a in range(10))-->".data⟩ := by
  show String.mk (subMacroNewline (subComment (subEnd (subFlowC (subDollar
    (subBackslash
      (List.replicate n ' ' ++ "% for a in range(10):".data))))))) = _
  rw [subBackslash_id _ (not_mem_spaces_append n _ (by decide) (by decide))]
  rw [subDollar_id _ (not_mem_spaces_append n _ (by decide) (by decide))]
  rw [subFlowC_forline]
  rw [subEnd_spaces, show subEnd "<!--(for a in range(10))-->".data =
    "<!--(for a in range(10))-->".data from by decide]
  rw [subComment_id _ (not_mem_spaces_append n _ (by decide) (by decide))]
  rw [subMacroNewline_spaces,
    show subMacroNewline "<!--(for a in range(10))-->".data =
      "<!--(for a in range(10))-->".data from by decide]

theorem preprocessCpp_endline (n : Nat) (w : List Char) (hw : w ≠ [])
    (hlow : w.all isLowerAlpha = true) :
    preprocessCpp ⟨List.replicate n ' ' ++ '%' :: ' ' :: ("end".data ++ w)⟩ =
      ⟨List.replicate n ' ' ++ "<!--(end)-->".data⟩ := by
  show String.mk (subMacroNewline (subComment (subEnd (subFlowCpp (subDollar
    (subBackslash (List.replicate n ' ' ++ '%' :: ' ' ::
      ("end".data ++ w)))))))) = _
  rw [subBackslash_id _ (not_mem_endline_chars n w hlow (by decide) (by decide)
    (by decide) (by decide))]
  rw [subDollar_id _ (not_mem_endline_chars n w hlow (by decide) (by decide)
    (by decide) (by decide))]
  rw [subFlowCpp_endline n w hw hlow]
  rw [subEnd_spaces, subEnd_marker w hw hlow]
  rw [subComment_id _ (not_mem_spaces_append n _ (by decide) (by decide))]
  rw [subMacroNewline_spaces, show subMacroNewline "<!--(end)-->".data =
    "<!--(end)-->".data from by decide]

theorem preprocessC_endline (n : Nat) (w : List Char) (hw : w ≠ [])
    (hlow : w.all isLowerAlpha = true) :
    preprocessC ⟨List.replicate n ' ' ++ '%' :: ' ' :: ("end".data ++ w)⟩ =
      ⟨List.replicate n ' ' ++ "<!--(end)-->".data⟩ := by
  show String.mk (subMacroNewline (subComment (subEnd (subFlowC (subDollar
    (subBackslash (List.replicate n ' ' ++ '%' :: ' ' ::
      ("end".data ++ w)))))))) = _
  rw [subBackslash_id _ (not_mem_endline_chars n w hlow (by decide) (by decide)
    (by decide) (by decide))]
  rw [subDollar_id _ (not_mem_endline_chars n w hlow (by decide) (by decide)
    (by decide) (by decide))]
  rw [subFlowC_endline n w hw hlow]
  rw [subEnd_spaces, subEnd_marker w hw hlow]
  rw [subComment_id _ (not_mem_spaces_append n _ (by decide) (by decide))]
  rw [subMacroNewline_spaces, show subMacroNewline "<!--(end)-->".data =
    "<!--(end)-->".data from by decide]

/-- C6: on both generator variants, a template line `% for a in range(10):`
(under any indentation) preprocesses to that indentation followed by the
block-open marker `<!--(for a in range(10))-->`; a line `% end<keyword>`
for any non-empty lowercase keyword (so `% endfor`, `% endif`, …)
preprocesses to the single generic close marker `<!--(end)-->`; and the
two-line template of the spec example rewrites accordingly. -/
theorem c6_preprocessor_rewrites :
    (∀ n : Nat,
      preprocessCpp ⟨List.replicate n ' ' ++ "% for a in range(10):".data⟩ =
        ⟨List.replicate n ' ' ++ "<!--(for a in range(10))-->".data⟩) ∧
    (∀ n : Nat,
      preprocessC ⟨List.replicate n ' ' ++ "% for a in range(10):".data⟩ =
        ⟨List.replicate n ' ' ++ "<!--(for a in range(10))-->".data⟩) ∧
    (∀ (n : Nat) (w : List Char), w ≠ [] → w.all isLowerAlpha = true →
      preprocessCpp ⟨List.replicate n ' ' ++ '%' :: ' ' :: ("end".data ++ w)⟩ =
        ⟨List.replicate n ' ' ++ "<!--(end)-->".data⟩) ∧
    (∀ (n : Nat) (w : List Char), w ≠ [] → w.all isLowerAlpha = true →
      preprocessC ⟨List.replicate n ' ' ++ '%' :: ' ' :: ("end".data ++ w)⟩ =
        ⟨List.replicate n ' ' ++ "<!--(end)-->".data⟩) ∧
    preprocessCpp "% for a in range(10):\n% endfor" =
      "<!--(for a in range(10))-->\n<!--(end)-->" ∧
    preprocessC "% for a in range(10):\n% endfor" =
      "<!--(for a in range(10))-->\n<!--(end)-->" :=
  ⟨preprocessCpp_forline, preprocessC_forline, preprocessCpp_endline,
    preprocessC_endline, by decide, by decide⟩

/-- C6 witness: the parameterized rewrites instantiated at indentation 2
and keyword `for` (the line `  % endfor`). -/
theorem c6_preprocessor_rewrites_witness :
    ("for".data ≠ [] ∧ ("for".data).all isLowerAlpha = true) ∧
      preprocessCpp
          ⟨List.replicate 2 ' ' ++ '%' :: ' ' :: ("end".data ++ "for".data)⟩ =
        ⟨List.replicate 2 ' ' ++ "<!--(end)-->".data⟩ ∧
      preprocessCpp
          ⟨List.replicate 2 ' ' ++ "% for a in range(10):".data⟩ =
        ⟨List.replicate 2 ' ' ++ "<!--(for a in range(10))-->".data⟩ :=
  ⟨⟨by decide, by decide⟩,
    c6_preprocessor_rewrites.2.2.1 2 "for".data (by decide) (by decide),
    c6_preprocessor_rewrites.1 2⟩

/-- C5 counterexample: preprocessing is not idempotent — the
macro-declaration spacing rule (`.*?` matches empty) appends one newline
after the macro marker on every run, so a second run on the preprocessor's
own (already-primitive) output changes it again. -/
theorem c5_preprocess_not_idempotent :
    preprocessCpp (preprocessCpp "<!--(macro m)-->") ≠
        preprocessCpp "<!--(macro m)-->" ∧
      preprocessCpp "<!--(macro m)-->" = "<!--(macro m)-->\n" ∧
      preprocessCpp (preprocessCpp "<!--(macro m)-->") =
        "<!--(macro m)-->\n\n" := by
  refine ⟨?_, by decide, by decide⟩
  decide

/-- Characters that can begin (or feed) one of the six rewrite rules:
backslash-newline joining, `${}` substitution, `%` control lines,
`<!--(...)-->` markers and `#!` comments. -/
def triggerFree (l : List Char) : Bool :=
  l.all (fun c =>
    !(c == '\\' || c == '$' || c == '%' || c == '<' || c == '#'))

theorem triggerFree_mem {l : List Char} (h : triggerFree l = true) {c : Char}
    (hm : c ∈ l) :
    c ≠ '\\' ∧ c ≠ '$' ∧ c ≠ '%' ∧ c ≠ '<' ∧ c ≠ '#' := by
  have := List.all_eq_true.mp h _ hm
  simp only [Bool.or_eq_true, beq_iff_eq, Bool.not_eq_true',
    Bool.or_eq_false_iff, beq_eq_false_iff_ne, ne_eq] at this
  exact ⟨this.1.1.1.1, this.1.1.1.2, this.1.1.2, this.1.2, this.2⟩

/-- C5 amended: the preprocessor is the identity — hence a fixed point, and
re-running it is a no-op — on every text containing none of the rewrite
trigger characters, for both generator variants.  (On texts containing a
macro-declaration marker it is not idempotent; see the counterexample.) -/
theorem c5_preprocess_identity_on_trigger_free (t : String)
    (h : triggerFree t.data = true) :
    preprocessCpp t = t ∧ preprocessCpp (preprocessCpp t) = preprocessCpp t ∧
      preprocessC t = t ∧ preprocessC (preprocessC t) = preprocessC t := by
  have hb : '\\' ∉ t.data := fun hm => (triggerFree_mem h hm).1 rfl
  have hd : '$' ∉ t.data := fun hm => (triggerFree_mem h hm).2.1 rfl
  have hp : '%' ∉ t.data := fun hm => (triggerFree_mem h hm).2.2.1 rfl
  have hl : '<' ∉ t.data := fun hm => (triggerFree_mem h hm).2.2.2.1 rfl
  have hh : '#' ∉ t.data := fun hm => (triggerFree_mem h hm).2.2.2.2 rfl
  have hcpp : preprocessCpp t = t := by
    show String.mk (subMacroNewline (subComment (subEnd (subFlowCpp (subDollar
      (subBackslash t.data)))))) = t
    rw [subBackslash_id _ hb, subDollar_id _ hd, subFlowCpp_id _ hp,
      subEnd_id _ hl, subComment_id _ hh, subMacroNewline_id _ hl]
  have hc : preprocessC t = t := by
    show String.mk (subMacroNewline (subComment (subEnd (subFlowC (subDollar
      (subBackslash t.data)))))) = t
    rw [subBackslash_id _ hb, subDollar_id _ hd, subFlowC_id _ hp,
      subEnd_id _ hl, subComment_id _ hh, subMacroNewline_id _ hl]
  exact ⟨hcpp, by rw [hcpp, hcpp], hc, by rw [hc, hc]⟩

/-- C5 witness: a plain two-line text is a fixed point of both variants. -/
theorem c5_preprocess_identity_witness :
    triggerFree ("hello\nworld" : String).data = true ∧
      preprocessCpp "hello\nworld" = "hello\nworld" :=
  ⟨by decide,
    (c5_preprocess_identity_on_trigger_free "hello\nworld" (by decide)).1⟩

/-! ## Output text normalization (generate_one_type, lines 287-290)

```
text = '\n'.join(x.rstrip() for x in text.splitlines())
text = text.replace('\n\n\n\n\n', '\n\n').replace('\n\n\n\n', '\n\n')
           .replace('\n\n\n', '\n\n')
text = text.replace('{\n\n ', '{\n ')
```
`pyReplace` is Python's `str.replace`: one left-to-right pass over
non-overlapping occurrences.  `pySplitlines` models `str.splitlines` for
texts whose only line break character is `'\n'` (no `'\r'`, `'\x0b'`,
`'\x0c'` or rarer breaks), and `pyRstrip` models `str.rstrip` for such
texts. -/

def pyRstrip (l : List Char) : List Char :=
  (l.reverse.dropWhile pyWsChar).reverse

def pySplitlines (l : List Char) : List (List Char) :=
  if l.isEmpty then []
  else if l.getLast? = some '\n' then (splitNl l).dropLast else splitNl l

def stepReplace (old new : List Char) (l : List Char) :
    Option (List Char × List Char) :=
  (dropPrefixL old l).map (fun rest => (new, rest))

def pyReplace (old new l : List Char) : List Char :=
  scanGo (stepReplace old new) l.length l

/-- The whitespace normalization applied to every generated text before it
is written. -/
def normalize_generated_text (s : String) : String :=
  let t1 := joinNl ((pySplitlines s.data).map pyRstrip)
  let t2 := pyReplace "\n\n\n\n\n".data "\n\n".data t1
  let t3 := pyReplace "\n\n\n\n".data "\n\n".data t2
  let t4 := pyReplace "\n\n\n".data "\n\n".data t3
  ⟨pyReplace "\x7b\n\n ".data "\x7b\n ".data t4⟩

def wsNotNl (c : Char) : Bool := pyWsChar c && !(c == '\n')

/-- No line of the text carries trailing whitespace: scanning left to
right, `pend` records whether the previous character was non-newline
whitespace; such a character directly before a newline or at the end of
the text is a trailing-whitespace violation. -/
def goodLinesAux : Bool → List Char → Bool
  | pend, [] => !pend
  | pend, c :: rest =>
      if c == '\n' then !pend && goodLinesAux false rest
      else goodLinesAux (wsNotNl c) rest

def goodLines (l : List Char) : Bool := goodLinesAux false l

/-- Texts whose characters are printable ASCII, tabs or newlines — the
range on which `pySplitlines`/`pyRstrip` faithfully model Python. -/
def tameText (l : List Char) : Bool :=
  l.all (fun c => c == '\n' || c == '\t' || (' ' ≤ c && c ≤ '~'))

theorem dropPrefixL_eq_some (p : List Char) :
    ∀ l r, dropPrefixL p l = some r → l = p ++ r := by
  induction p with
  | nil =>
      intro l r h
      simp [dropPrefixL] at h
      simp [h]
  | cons c ps ih =>
      intro l r h
      cases l with
      | nil => cases h
      | cons d ls =>
          simp only [dropPrefixL] at h
          by_cases hc : (c == d) = true
          · rw [if_pos hc] at h
            rw [ih ls r h, List.cons_append, eq_of_beq hc]
          · rw [if_neg hc] at h
            cases h

theorem gaux_nlrun : ∀ (k : Nat), 1 ≤ k → ∀ (pend : Bool) (r : List Char),
    goodLinesAux pend (List.replicate k '\n' ++ r) =
      (!pend && goodLinesAux false r) := by
  intro k
  induction k with
  | zero => omega
  | succ m ih =>
      intro _ pend r
      rw [List.replicate_succ, List.cons_append]
      simp only [goodLinesAux, show (('\n' : Char) == '\n') = true from rfl,
        if_true]
      cases m with
      | zero => simp [goodLinesAux]
      | succ m2 =>
          rw [ih (by omega) false r]
          simp

theorem gaux_preserved_replace_nl (k : Nat) (hk : 1 ≤ k) :
    ∀ (fuel : Nat) (l : List Char) (pend : Bool),
      goodLinesAux pend l = true →
      goodLinesAux pend
        (scanGo (stepReplace (List.replicate k '\n') "\n\n".data) fuel l) =
        true := by
  intro fuel
  induction fuel with
  | zero => intro l pend h; exact h
  | succ f ih =>
      intro l pend h
      cases l with
      | nil => exact h
      | cons c cs =>
          simp only [scanGo]
          cases hstep : stepReplace (List.replicate k '\n') "\n\n".data
            (c :: cs) with
          | none =>
              simp only [goodLinesAux] at h ⊢
              by_cases hc : (c == '\n') = true
              · rw [if_pos hc] at h ⊢
                rw [Bool.and_eq_true] at h
                rw [h.1, Bool.true_and]
                exact ih cs false h.2
              · rw [if_neg hc] at h ⊢
                exact ih cs (wsNotNl c) h
          | some pr =>
              rw [stepReplace] at hstep
              cases hmap : dropPrefixL (List.replicate k '\n') (c :: cs) with
              | none => rw [hmap] at hstep; cases hstep
              | some rest =>
                  rw [hmap] at hstep
                  have hpr : pr = ("\n\n".data, rest) := by
                    simpa using hstep.symm
                  subst hpr
                  have hl : c :: cs = List.replicate k '\n' ++ rest :=
                    dropPrefixL_eq_some _ _ _ hmap
                  rw [hl, gaux_nlrun k hk pend rest, Bool.and_eq_true] at h
                  show goodLinesAux pend (List.replicate 2 '\n' ++
                    scanGo (stepReplace (List.replicate k '\n') "\n\n".data)
                      f rest) = true
                  rw [gaux_nlrun 2 (by omega) pend _, h.1, Bool.true_and]
                  exact ih rest false h.2

theorem gaux_preserved_brace :
    ∀ (fuel : Nat) (l : List Char) (pend : Bool),
      goodLinesAux pend l = true →
      goodLinesAux pend
        (scanGo (stepReplace "\x7b\n\n ".data "\x7b\n ".data) fuel l) =
        true := by
  intro fuel
  induction fuel with
  | zero => intro l pend h; exact h
  | succ f ih =>
      intro l pend h
      cases l with
      | nil => exact h
      | cons c cs =>
          simp only [scanGo]
          cases hstep : stepReplace "\x7b\n\n ".data "\x7b\n ".data
            (c :: cs) with
          | none =>
              simp only [goodLinesAux] at h ⊢
              by_cases hc : (c == '\n') = true
              · rw [if_pos hc] at h ⊢
                rw [Bool.and_eq_true] at h
                rw [h.1, Bool.true_and]
                exact ih cs false h.2
              · rw [if_neg hc] at h ⊢
                exact ih cs (wsNotNl c) h
          | some pr =>
              rw [stepReplace] at hstep
              cases hmap : dropPrefixL "\x7b\n\n ".data (c :: cs) with
              | none => rw [hmap] at hstep; cases hstep
              | some rest =>
                  rw [hmap] at hstep
                  have hpr : pr = ("\x7b\n ".data, rest) := by
                    simpa using hstep.symm
                  subst hpr
                  have hl : c :: cs = "\x7b\n\n ".data ++ rest :=
                    dropPrefixL_eq_some _ _ _ hmap
                  rw [hl] at h
                  have h2 : goodLinesAux true rest = true := by
                    simpa [goodLinesAux, wsNotNl, pyWsChar] using h
                  show goodLinesAux pend ('\x7b' :: '\n' :: ' ' ::
                    scanGo (stepReplace "\x7b\n\n ".data "\x7b\n ".data)
                      f rest) = true
                  simpa [goodLinesAux, wsNotNl, pyWsChar] using ih rest true h2

def endPend (l : List Char) (pend : Bool) : Bool :=
  l.foldl (fun _ c => wsNotNl c) pend

theorem gaux_append_nlfree (l : List Char) (hnl : '\n' ∉ l) :
    ∀ (pend : Bool) (r : List Char),
      goodLinesAux pend (l ++ r) = goodLinesAux (endPend l pend) r := by
  induction l with
  | nil => intro pend r; rfl
  | cons c cs ih =>
      intro pend r
      have hc : (c == '\n') = false := by
        simp only [beq_eq_false_iff_ne, ne_eq]
        intro he
        exact hnl (he ▸ List.mem_cons_self c cs)
      rw [List.cons_append]
      simp only [goodLinesAux, hc, Bool.false_eq_true, if_false]
      exact ih (fun hm => hnl (List.mem_cons_of_mem _ hm)) (wsNotNl c) r

def rstripped (l : List Char) : Bool :=
  match l.getLast? with
  | none => true
  | some c => !pyWsChar c

theorem endPend_eq_last (l : List Char) :
    ∀ pend : Bool, endPend l pend =
      (match l.getLast? with
       | none => pend
       | some c => wsNotNl c) := by
  induction l with
  | nil => intro pend; rfl
  | cons c cs ih =>
      intro pend
      cases cs with
      | nil => rfl
      | cons d ds =>
          show endPend (d :: ds) (wsNotNl c) = _
          rw [ih (wsNotNl c)]
          rfl

theorem endPend_false (l : List Char) (h : rstripped l = true) :
    endPend l false = false := by
  rw [endPend_eq_last]
  unfold rstripped at h
  cases hl : l.getLast? with
  | none => rfl
  | some c =>
      rw [hl] at h
      simp only [Bool.not_eq_true'] at h
      simp [wsNotNl, h]

theorem gaux_nlfree (l : List Char) (hnl : '\n' ∉ l) (pend : Bool) :
    goodLinesAux pend l = !(endPend l pend) := by
  have := gaux_append_nlfree l hnl pend []
  rwa [List.append_nil] at this

theorem goodLines_joinNl (lines : List (List Char))
    (h : ∀ l ∈ lines, '\n' ∉ l ∧ rstripped l = true) :
    goodLines (joinNl lines) = true := by
  unfold goodLines
  induction lines with
  | nil => rfl
  | cons l ls ih =>
      cases ls with
      | nil =>
          show goodLinesAux false l = true
          obtain ⟨hnl, hrs⟩ := h l (List.mem_cons_self _ _)
          rw [gaux_nlfree l hnl, endPend_false l hrs]
          rfl
      | cons l2 ls2 =>
          rw [joinNl_cons _ _ (by simp)]
          obtain ⟨hnl, hrs⟩ := h l (List.mem_cons_self _ _)
          rw [gaux_append_nlfree l hnl, endPend_false l hrs]
          simp only [goodLinesAux, show (('\n' : Char) == '\n') = true from rfl,
            if_true, Bool.not_false, Bool.true_and]
          exact ih (fun x hx => h x (List.mem_cons_of_mem _ hx))

theorem dropWhile_head_not (p : Char → Bool) (l : List Char) :
    ∀ c, (l.dropWhile p).head? = some c → p c = false := by
  induction l with
  | nil => intro c hc; cases hc
  | cons d ds ih =>
      intro c hc
      rw [List.dropWhile_cons] at hc
      by_cases hd : p d = true
      · rw [if_pos hd] at hc
        exact ih c hc
      · rw [if_neg hd] at hc
        injection hc with h1
        rw [← h1]
        exact Bool.not_eq_true _ ▸ hd

theorem pyRstrip_rstripped (l : List Char) : rstripped (pyRstrip l) = true := by
  unfold pyRstrip rstripped
  cases hh : ((l.reverse.dropWhile pyWsChar).reverse).getLast? with
  | none => rfl
  | some c =>
      rw [List.getLast?_reverse] at hh
      show (!pyWsChar c) = true
      rw [dropWhile_head_not pyWsChar l.reverse c hh]
      rfl

theorem pyRstrip_subset (l : List Char) {c : Char} (hm : c ∈ pyRstrip l) :
    c ∈ l := by
  unfold pyRstrip at hm
  rw [List.mem_reverse] at hm
  have := (List.dropWhile_sublist (l := l.reverse) pyWsChar).subset hm
  rwa [List.mem_reverse] at this

theorem splitNl_pieces_no_nl (l : List Char) :
    ∀ line ∈ splitNl l, '\n' ∉ line := by
  induction l with
  | nil =>
      intro line hline
      simp [splitNl] at hline
      subst hline
      simp
  | cons a cs ih =>
      intro line hline
      simp only [splitNl] at hline
      by_cases ha : (a == '\n') = true
      · rw [if_pos ha] at hline
        rcases List.mem_cons.mp hline with rfl | h2
        · simp
        · exact ih line h2
      · rw [if_neg ha] at hline
        cases hsp : splitNl cs with
        | nil => exact absurd hsp (splitNl_ne_nil cs)
        | cons p ps =>
            rw [hsp] at hline
            rcases List.mem_cons.mp hline with rfl | h2
            · intro hm
              rcases List.mem_cons.mp hm with h3 | h4
              · exact ha (by rw [← h3]; rfl)
              · exact ih p (by rw [hsp]; exact List.mem_cons_self _ _) h4
            · exact ih line (by rw [hsp]; exact List.mem_cons_of_mem _ h2)

theorem pySplitlines_pieces_no_nl (l : List Char) :
    ∀ line ∈ pySplitlines l, '\n' ∉ line := by
  intro line hline
  unfold pySplitlines at hline
  split at hline
  · cases hline
  · split at hline
    · exact splitNl_pieces_no_nl l line
        ((List.dropLast_sublist _).subset hline)
    · exact splitNl_pieces_no_nl l line hline

/-- C7 counterexample: a run of 8 consecutive blank lines (9 newlines) is
not collapsed to one blank line — the replace chain leaves 2 blank lines. -/
theorem c7_blank_collapse_counterexample :
    normalize_generated_text "a\n\n\n\n\n\n\n\n\nb" = "a\n\n\nb" ∧
      normalize_generated_text "a\n\n\n\n\n\n\n\n\nb" ≠ "a\n\nb" :=
  ⟨by decide, by decide⟩

/-- C7 amended: normalization strips trailing whitespace from every line —
no line of the normalized output ends in whitespace — and collapses runs of
3 to 7 consecutive blank lines down to exactly one blank line; longer runs
are shortened but may retain more than one blank line (8 blank lines leave
2, per the counterexample). -/
theorem c7_normalization_strips_and_collapses :
    (∀ s : String, tameText s.data = true →
      goodLines (normalize_generated_text s).data = true) ∧
    normalize_generated_text "a\n\n\n\nb" = "a\n\nb" ∧
    normalize_generated_text "a\n\n\n\n\nb" = "a\n\nb" ∧
    normalize_generated_text "a\n\n\n\n\n\nb" = "a\n\nb" ∧
    normalize_generated_text "a\n\n\n\n\n\n\nb" = "a\n\nb" ∧
    normalize_generated_text "a\n\n\n\n\n\n\n\nb" = "a\n\nb" := by
  refine ⟨?_, by decide, by decide, by decide, by decide, by decide⟩
  intro s _
  have h1 : goodLines (joinNl ((pySplitlines s.data).map pyRstrip)) = true := by
    apply goodLines_joinNl
    intro l hl
    obtain ⟨l0, hl0, rfl⟩ := List.mem_map.mp hl
    exact ⟨fun hm => pySplitlines_pieces_no_nl s.data l0 hl0
      (pyRstrip_subset l0 hm), pyRstrip_rstripped l0⟩
  have h2 : goodLines (pyReplace "\n\n\n\n\n".data "\n\n".data
      (joinNl ((pySplitlines s.data).map pyRstrip))) = true :=
    gaux_preserved_replace_nl 5 (by omega) _ _ false h1
  have h3 : goodLines (pyReplace "\n\n\n\n".data "\n\n".data
      (pyReplace "\n\n\n\n\n".data "\n\n".data
        (joinNl ((pySplitlines s.data).map pyRstrip)))) = true :=
    gaux_preserved_replace_nl 4 (by omega) _ _ false h2
  have h4 : goodLines (pyReplace "\n\n\n".data "\n\n".data
      (pyReplace "\n\n\n\n".data "\n\n".data
        (pyReplace "\n\n\n\n\n".data "\n\n".data
          (joinNl ((pySplitlines s.data).map pyRstrip))))) = true :=
    gaux_preserved_replace_nl 3 (by omega) _ _ false h3
  exact gaux_preserved_brace _ _ false h4

/-- C7 witness: the stripping half instantiated at a concrete text with
trailing whitespace. -/
theorem c7_normalization_witness :
    tameText ("x  \ny\t" : String).data = true ∧
      goodLines (normalize_generated_text "x  \ny\t").data = true :=
  ⟨by decide, c7_normalization_strips_and_collapses.1 "x  \ny\t" (by decide)⟩
